import Mathlib

/-!
Verification of the DNS server's name codec, message codec, cache and
resolver logic.  Go byte strings are modelled as `List Nat` (one entry per
byte), Go slices as `List`, Go's `(value, error)` returns as
`Except String`.  Loops are modelled as fuel-indexed recursions whose fuel
is chosen large enough to cover every terminating execution of the source.
-/

namespace DnsGo

instance {ε α : Type} [DecidableEq ε] [DecidableEq α] : DecidableEq (Except ε α) := by
  intro a b
  cases a <;> cases b
  case error.error e₁ e₂ =>
    exact if h : e₁ = e₂ then .isTrue (by rw [h]) else .isFalse (by simp [h])
  case error.ok e₁ v₂ => exact .isFalse (by simp)
  case ok.error v₁ e₂ => exact .isFalse (by simp)
  case ok.ok v₁ v₂ =>
    exact if h : v₁ = v₂ then .isTrue (by rw [h]) else .isFalse (by simp [h])

/-- Byte value of the dot character separating labels. -/
def dot : Nat := 46

/-- ASCII whitespace bytes trimmed by Go strings.TrimSpace on ASCII input. -/
def isSpaceByte (b : Nat) : Bool :=
  b == 9 || b == 10 || b == 11 || b == 12 || b == 13 || b == 32

/-- Model of Go strings.TrimSpace on byte strings.  Faithful exactly on
ASCII input: Go additionally trims the multi-byte UTF-8 encodings of Unicode
whitespace (such as 0xC2 0xA0), so theorems that quantify over byte names
restrict their labels to bytes below 128, where the two agree byte for
byte. -/
def trimSpace (s : List Nat) : List Nat :=
  ((s.dropWhile isSpaceByte).reverse.dropWhile isSpaceByte).reverse

/-- Model of Go strings.Split(s, ".") on byte strings. -/
def splitOnDot (s : List Nat) : List (List Nat) := s.splitOn dot

/-- Model of Go strings.Join(labels, ".") on byte strings. -/
def joinDot (ls : List (List Nat)) : List Nat := List.intercalate [dot] ls

/-- utils.MaxLabelLength. -/
def MaxLabelLength : Nat := 63

/-- utils.MaxDomainNameLength. -/
def MaxDomainNameLength : Nat := 255

/-- utils.ValidateName. -/
def ValidateName (name : List Nat) : Except String Unit :=
  if name.length = 0 then .error "domain name cannot be empty"
  else if name.length > MaxDomainNameLength then
    .error "domain name exceeds maximum length of 255 bytes"
  else if (splitOnDot name).any (fun label => (trimSpace label).length > MaxLabelLength) then
    .error "label exceeds maximum length of 63 bytes"
  else .ok ()

/-- Label-emitting loop of utils.EncodeDomainNameToLabel: each label that
trims to a non-empty string contributes a length byte and its bytes. -/
def encLabels : List (List Nat) → List Nat
  | [] => []
  | label :: rest =>
    let t := trimSpace label
    if t.length > 0 then (t.length % 256) :: (t ++ encLabels rest)
    else encLabels rest

/-- utils.EncodeDomainNameToLabel. -/
def EncodeDomainNameToLabel (name : List Nat) : Except String (List Nat) :=
  match ValidateName name with
  | .error e => .error e
  | .ok _ => .ok (encLabels (splitOnDot (trimSpace name)) ++ [0])

/-- bytes.Equal(fullPacket[i:i+len(nameBytes)], nameBytes) as used by
utils.findNameMatch. -/
def sliceEq (packet : List Nat) (i : Nat) (nameBytes : List Nat) : Bool :=
  (packet.drop i).take nameBytes.length == nameBytes

/-- Scanning loop of utils.findNameMatch: try indices i, i+1, … for `count`
steps, returning the first index whose window equals `nameBytes`. -/
def findFrom (packet nameBytes : List Nat) : Nat → Nat → Option Nat
  | _, 0 => none
  | i, count + 1 =>
    if sliceEq packet i nameBytes then some i else findFrom packet nameBytes (i + 1) count

/-- utils.findNameMatch; the source's −1 sentinel becomes `none`. -/
def findNameMatch (name fullPacket : List Nat) : Option Nat :=
  if name.length = 0 then none
  else
    match EncodeDomainNameToLabel name with
    | .error _ => none
    | .ok nameBytes => findFrom fullPacket nameBytes 0 (fullPacket.length - nameBytes.length)

/-- utils.createPointer: a 14-bit back-pointer, or the empty slice when the
offset does not fit in 14 bits. -/
def createPointer (offset : Nat) : List Nat :=
  if offset > 16383 then []
  else [192 ||| ((offset >>> 8) % 256), offset % 256]

/-- Label loop of utils.MarshalName over the split labels; `labels` is the
still-unprocessed tail of the split, and a suffix match in the packet ends
the output with a pointer (and no terminator). -/
def marshalLabels (fullPacket : List Nat) : List (List Nat) → List Nat
  | [] => [0]
  | label :: rest =>
    let t := trimSpace label
    if t.length = 0 then marshalLabels fullPacket rest
    else
      match findNameMatch (joinDot (label :: rest)) fullPacket with
      | some m => createPointer m
      | none => (t.length % 256) :: (t ++ marshalLabels fullPacket rest)

/-- utils.MarshalName.  The source's `offset` parameter only feeds a dead
local variable and never influences the output. -/
def MarshalName (name : List Nat) (fullPacket : List Nat) (_offset : Nat) :
    Except String (List Nat) :=
  match ValidateName name with
  | .error e => .error e
  | .ok _ =>
    if name = [] ∨ name = [dot] then .ok [0]
    else .ok (marshalLabels fullPacket (splitOnDot (trimSpace name)))

/-- utils.UnmarshalName's pointerMarker constant. -/
def pointerMarker : Nat := 192

/-- utils.UnmarshalName's maxPointers constant. -/
def maxPointers : Nat := 10

/-- Decoding loop of utils.UnmarshalName.  State: current buffer, offset,
accumulated name bytes, frozen-on-jump bytesConsumed counter, jumped flag,
pointersFollowed counter.  The fuel argument only guards termination and is
chosen large enough at the entry point that the distinguished fuel error is
unreachable for the source's terminating loop. -/
def unmarshalLoop (fullPacket : List Nat) (startOffset : Nat) :
    Nat → List Nat → Nat → List Nat → Nat → Bool → Nat → Except String (List Nat × Nat)
  | 0, _, _, _, _, _, _ => .error "unreachable: loop fuel exhausted"
  | fuel + 1, cur, offset, nameAcc, bytesConsumed, jumped, pointersFollowed =>
    if offset ≥ cur.length then .error "offset out of bounds during parsing"
    else
      let currentByte := cur.getD offset 0
      if currentByte &&& pointerMarker == pointerMarker then
        if offset + 1 ≥ cur.length then .error "incomplete pointer at end of buffer"
        else
          let bytesConsumed' := if jumped then bytesConsumed else offset - startOffset + 2
          let pointerOffset := ((currentByte &&& 63) <<< 8) ||| cur.getD (offset + 1) 0
          if pointerOffset ≥ fullPacket.length then
            .error "pointer offset out of bounds"
          else if pointersFollowed + 1 > maxPointers then
            .error "too many pointers followed, potential loop detected"
          else
            unmarshalLoop fullPacket startOffset fuel fullPacket pointerOffset nameAcc
              bytesConsumed' true (pointersFollowed + 1)
      else
        let labelLength := currentByte
        if labelLength > MaxLabelLength then
          .error "label exceeds maximum length of 63 bytes"
        else if labelLength = 0 then
          .ok (nameAcc, if jumped then bytesConsumed else offset + 1 - startOffset)
        else if offset + 1 + labelLength > cur.length then
          .error "label length exceeds buffer bounds"
        else
          let piece := (cur.drop (offset + 1)).take labelLength
          let nameAcc' := if nameAcc.length > 0 then nameAcc ++ dot :: piece else nameAcc ++ piece
          unmarshalLoop fullPacket startOffset fuel cur (offset + 1 + labelLength) nameAcc'
            (if jumped then bytesConsumed else offset + 1 + labelLength - startOffset)
            jumped pointersFollowed

/-- Fuel bound for `unmarshalLoop`: the pre-jump phase makes at most
`buffer.length + 1` iterations, at most `maxPointers + 1` jumps occur, and
each post-jump phase makes at most `fullPacket.length + 1` iterations. -/
def unmarshalFuel (buffer fullPacket : List Nat) : Nat :=
  buffer.length + 12 * (fullPacket.length + 2) + 12

/-- utils.UnmarshalName. -/
def UnmarshalName (buffer : List Nat) (offset : Nat) (fullPacket : List Nat) :
    Except String (List Nat × Nat) :=
  if offset ≥ buffer.length then .error "initial offset out of bounds for buffer length"
  else
    match unmarshalLoop fullPacket offset (unmarshalFuel buffer fullPacket) buffer offset [] 0 false 0 with
    | .error e => .error e
    | .ok (nm, bc) =>
      if nm.length == 0 && bc == 1 && buffer.getD offset 0 == 0 then .ok ([dot], 1)
      else .ok (nm, bc)

/-- Bytes physically present at a name's location, following the claimed
freeze rule: distance to just past the terminating zero byte when no pointer
occurs, and (position of the first pointer byte − start) + 2 otherwise.
The result is relative to `pos`; callers add the distance already covered. -/
def physicalExtentAux (buffer : List Nat) : Nat → Nat → Option Nat
  | _, 0 => none
  | pos, fuel + 1 =>
    if pos ≥ buffer.length then none
    else
      let b := buffer.getD pos 0
      if b &&& pointerMarker == pointerMarker then some 2
      else if b = 0 then some 1
      else
        match physicalExtentAux buffer (pos + 1 + b) fuel with
        | some e => some (1 + b + e)
        | none => none

/-- Physical byte extent of the name starting at `pos` in `buffer`. -/
def physicalExtent (buffer : List Nat) (pos : Nat) : Option Nat :=
  physicalExtentAux buffer pos (buffer.length + 1)

/-- Wire form of a list of already-clean labels: each label as a length byte
followed by its bytes, without the terminating zero. -/
def wireLabels : List (List Nat) → List Nat
  | [] => []
  | l :: rest => l.length :: (l ++ wireLabels rest)

/-- Name accumulation discipline of `unmarshalLoop`: append each label,
preceded by a dot when the accumulator is non-empty. -/
def appendAcc (acc : List Nat) : List (List Nat) → List Nat
  | [] => acc
  | l :: rest => appendAcc (if acc.length > 0 then acc ++ dot :: l else acc ++ l) rest

/-- A label that survives the codec unchanged: non-empty, at most 63 bytes,
free of dots, and fixed by trimming. -/
def goodLabel (l : List Nat) : Prop :=
  l ≠ [] ∧ l.length ≤ 63 ∧ dot ∉ l ∧ trimSpace l = l

instance (l : List Nat) : Decidable (goodLabel l) := by
  unfold goodLabel; infer_instance

/-- A name within the label-length and total-length limits: dot-joined good
labels, with or without a trailing dot, at most 255 bytes in total. -/
def GoodName (labels : List (List Nat)) (name : List Nat) (td : Bool) : Prop :=
  labels ≠ [] ∧ (∀ l ∈ labels, goodLabel l) ∧
  name = joinDot labels ++ (if td then [dot] else []) ∧
  name.length ≤ 255

instance (labels : List (List Nat)) (name : List Nat) (td : Bool) :
    Decidable (GoodName labels name td) := by
  unfold GoodName; infer_instance

/-- Packet exhibiting the high-offset compression failure: 16384 filler
bytes, then the encoding of the name "a", then one spare byte. -/
def c1Packet : List Nat := List.replicate 16384 2 ++ [1, 97, 0, 0]

/-- The 14-bit target of the compression pointer whose first byte sits at
position p of the packet, as UnmarshalName computes it. -/
def ptrTarget (full : List Nat) (p : Nat) : Nat :=
  ((full.getD p 0 &&& 63) <<< 8) ||| full.getD (p + 1) 0

/-- Source position of the k-th step of a pointer chain: the chain starts at
`offset`; at each step the decoder walks the labels `labs k` to reach the
k-th pointer byte (at `chainSrc k + (wireLabels (labs k)).length`) and
dereferencing it moves to its 14-bit target.  A packet whose reachable
pointer chain contains a cycle yields such a chain of any length. -/
def chainSrc (full : List Nat) (labs : Nat → List (List Nat)) (offset : Nat) : Nat → Nat
  | 0 => offset
  | k + 1 => ptrTarget full (chainSrc full labs offset k + (wireLabels (labs k)).length)

/-! ## Header, Question, RR and Message models

The Go Header stores each 16-bit field as a big-endian [2]byte pair and each
flag byte separately; the model stores the 16-bit value of each pair (ID and
the four counts) and the two flag bytes.  Setters reduce into the field's
range exactly where the Go code converts to uint16/uint32, so the
correspondence is value-for-value. -/

/-- utils.WouldOverflowUint16. -/
def WouldOverflowUint16 (value : Int) : Bool := value < 0 || value > 65535

/-- utils.WouldOverflowUint32. -/
def WouldOverflowUint32 (value : Int) : Bool := value < 0 || value > 4294967295

/-- header.Header: ID and counts as 16-bit values, the two flag bytes. -/
structure Header where
  ID : Nat
  Flags0 : Nat
  Flags1 : Nat
  QDCOUNT : Nat
  ANCOUNT : Nat
  NSCOUNT : Nat
  ARCOUNT : Nat
deriving DecidableEq

/-- The zero Header (Go's Header·zero value). -/
def emptyHeader : Header := ⟨0, 0, 0, 0, 0, 0, 0⟩

/-- Header.GetMessageID: the big-endian value of the ID bytes. -/
def GetMessageID (h : Header) : Nat := h.ID

/-- Header.SetQRFlag. -/
def SetQRFlag (h : Header) (isResponse : Bool) : Header :=
  if isResponse then { h with Flags0 := h.Flags0 ||| 128 }
  else { h with Flags0 := h.Flags0 &&& 127 }

/-- Header.IsAA. -/
def IsAA (h : Header) : Bool := h.Flags0 &&& 4 != 0

/-- Header.SetAA. -/
def SetAA (h : Header) (isAA : Bool) : Header :=
  if isAA then { h with Flags0 := h.Flags0 ||| 4 }
  else { h with Flags0 := h.Flags0 &&& 251 }

/-- Header.IsTC. -/
def IsTC (h : Header) : Bool := h.Flags0 &&& 2 != 0

/-- Header.SetTC. -/
def SetTC (h : Header) (isTruncated : Bool) : Header :=
  if isTruncated then { h with Flags0 := h.Flags0 ||| 2 }
  else { h with Flags0 := h.Flags0 &&& 253 }

/-- Header.IsRD. -/
def IsRD (h : Header) : Bool := h.Flags0 &&& 1 != 0

/-- Header.SetRD. -/
def SetRD (h : Header) (recursionDesired : Bool) : Header :=
  if recursionDesired then { h with Flags0 := h.Flags0 ||| 1 }
  else { h with Flags0 := h.Flags0 &&& 254 }

/-- Header.SetRA (second flag byte). -/
def SetRA (h : Header) (recursionAvailable : Bool) : Header :=
  if recursionAvailable then { h with Flags1 := h.Flags1 ||| 128 }
  else { h with Flags1 := h.Flags1 &&& 127 }

/-- Header.GetRCODE: low nibble of the second flag byte.  NoError = 0,
NameError (NXDOMAIN) = 3. -/
def GetRCODE (h : Header) : Nat := h.Flags1 &&& 15

/-- Header.SetRCODE. -/
def SetRCODE (h : Header) (rcode : Nat) : Header :=
  { h with Flags1 := (h.Flags1 &&& 240) ||| (rcode &&& 15) }

/-- Header.GetQDCOUNT. -/
def GetQDCOUNT (h : Header) : Nat := h.QDCOUNT

/-- Header.GetANCOUNT. -/
def GetANCOUNT (h : Header) : Nat := h.ANCOUNT

/-- Header.GetNSCOUNT. -/
def GetNSCOUNT (h : Header) : Nat := h.NSCOUNT

/-- Header.GetARCOUNT. -/
def GetARCOUNT (h : Header) : Nat := h.ARCOUNT

/-- Header.SetQDCOUNT(int) of the current Header package: fails when the
value would overflow uint16 (the spec's range-overflow rule; the Go body of
this revision is not among the repository's files, so the check is modelled
from the spec's words and the old PutUint16-based setter). -/
def SetQDCOUNT (h : Header) (qdcount : Int) : Except String Header :=
  if WouldOverflowUint16 qdcount then .error "QDCOUNT would overflow uint16"
  else .ok { h with QDCOUNT := qdcount.toNat }

/-- Header.SetANCOUNT(int), modelled like SetQDCOUNT. -/
def SetANCOUNT (h : Header) (ancount : Int) : Except String Header :=
  if WouldOverflowUint16 ancount then .error "ANCOUNT would overflow uint16"
  else .ok { h with ANCOUNT := ancount.toNat }

/-- Header.SetNSCOUNT(int), modelled like SetQDCOUNT. -/
def SetNSCOUNT (h : Header) (nscount : Int) : Except String Header :=
  if WouldOverflowUint16 nscount then .error "NSCOUNT would overflow uint16"
  else .ok { h with NSCOUNT := nscount.toNat }

/-- Header.SetARCOUNT(int), modelled like SetQDCOUNT. -/
def SetARCOUNT (h : Header) (arcount : Int) : Except String Header :=
  if WouldOverflowUint16 arcount then .error "ARCOUNT would overflow uint16"
  else .ok { h with ARCOUNT := arcount.toNat }

/-- binary.BigEndian.PutUint16: two big-endian bytes of a 16-bit value. -/
def u16be (n : Nat) : List Nat := [(n / 256) % 256, n % 256]

/-- binary.BigEndian.PutUint32: four big-endian bytes of a 32-bit value. -/
def u32be (n : Nat) : List Nat :=
  [(n / 16777216) % 256, (n / 65536) % 256, (n / 256) % 256, n % 256]

/-- binary.BigEndian.Uint32 read at index i of a byte list. -/
def readU32 (l : List Nat) (i : Nat) : Nat :=
  l.getD i 0 * 16777216 + l.getD (i + 1) 0 * 65536 + l.getD (i + 2) 0 * 256 +
    l.getD (i + 3) 0

/-- Header.MarshalBinary: the 12 header bytes, ID and counts big-endian,
then the two flag bytes.  The Go marshaller cannot fail. -/
def headerMarshalBinary (h : Header) : List Nat :=
  u16be h.ID ++ [h.Flags0 % 256, h.Flags1 % 256] ++ u16be h.QDCOUNT ++
    u16be h.ANCOUNT ++ u16be h.NSCOUNT ++ u16be h.ARCOUNT

/-- question.Question.  The Go field `Type` keeps its name as `Typ` because
`Type` is reserved in Lean. -/
structure Question where
  Name : List Nat
  Typ : Nat
  Class : Nat
deriving DecidableEq

/-- The zero Question. -/
def defaultQuestion : Question := ⟨[], 0, 0⟩

/-- question.Question.Marshal: uncompressed name, then type and class. -/
def questionMarshal (q : Question) : Except String (List Nat) :=
  match EncodeDomainNameToLabel q.Name with
  | .error e => .error e
  | .ok nameBytes => .ok (nameBytes ++ u16be q.Typ ++ u16be q.Class)

/-- RR.RR.  The Go field `Type` keeps its name as `Typ`. -/
structure RR where
  Name : List Nat
  fullPacket : List Nat
  RDATA : List Nat
  Typ : Nat
  Class : Nat
  TTL : Nat
  RDLENGTH : Nat
deriving DecidableEq

/-- The zero RR (Go's RR·zero value, as CopyRR starts from). -/
def emptyRR : RR := ⟨[], [], [], 0, 0, 0, 0⟩

/-- RR.SetRDATA: stores the data and reseats RDLENGTH to uint16(len). -/
def SetRDATA (rr : RR) (data : List Nat) : RR :=
  { rr with RDATA := data, RDLENGTH := data.length % 65536 }

/-- RR.SetTTL(int): fails when the value would overflow uint32. -/
def SetTTL (rr : RR) (ttl : Int) : Except String RR :=
  if WouldOverflowUint32 ttl then .error "ttl overflows uint32"
  else .ok { rr with TTL := ttl.toNat }

/-- RR.SetRDATAToARecord: type A (1) and the 4 address bytes (net.IP.To4 on
a 4-byte address is the identity at the byte level). -/
def SetRDATAToARecord (rr : RR) (ip : List Nat) : RR :=
  SetRDATA { rr with Typ := 1 } ip

/-- RR.GetRDATAAsARecord: type-guards first, then length checks.  The Go
error strings carry formatted values; the model keeps their prose. -/
def GetRDATAAsARecord (rr : RR) : Except String (List Nat) :=
  if rr.Typ ≠ 1 then .error "record type is not A type"
  else if rr.RDATA.length ≠ rr.RDLENGTH then .error "invalid A record data length"
  else if rr.RDATA.length ≠ 4 then .error "invalid A record data length, expected 4"
  else .ok rr.RDATA

/-- RR.SetRDATAToMXRecord: 2-byte preference then the compressed exchange
name (compression against the 2 preference bytes). -/
def SetRDATAToMXRecord (rr : RR) (preference : Nat) (exchange : List Nat) :
    Except String RR :=
  let data := [(preference >>> 8) % 256, preference &&& 255]
  match MarshalName exchange data data.length with
  | .error e => .error e
  | .ok enc => .ok (SetRDATA { rr with Typ := 15 } (data ++ enc))

/-- RR.GetRDATAAsMXRecord. -/
def GetRDATAAsMXRecord (rr : RR) : Except String (Nat × List Nat) :=
  if rr.Typ ≠ 15 then .error "record type is not MX type"
  else if rr.RDATA.length ≠ rr.RDLENGTH then .error "invalid MX record data length"
  else if rr.RDATA.length < 3 then .error "MX record data too short"
  else
    match UnmarshalName (rr.RDATA.drop 2) 0 rr.fullPacket with
    | .error _ => .error "failed to unmarshal MX exchange"
    | .ok (exchange, _) => .ok (rr.RDATA.getD 0 0 * 256 + rr.RDATA.getD 1 0, exchange)

/-- RR.SetRDATAToCNAMERecord. -/
def SetRDATAToCNAMERecord (rr : RR) (canonicalName : List Nat) : Except String RR :=
  match MarshalName canonicalName [] 0 with
  | .error e => .error e
  | .ok enc => .ok (SetRDATA { rr with Typ := 5 } enc)

/-- RR.GetRDATAAsCNAMERecord. -/
def GetRDATAAsCNAMERecord (rr : RR) : Except String (List Nat) :=
  if rr.Typ ≠ 5 then .error "record type is not CNAME type"
  else if rr.RDATA.length ≠ rr.RDLENGTH then .error "invalid CNAME record data length"
  else
    match UnmarshalName rr.RDATA 0 rr.fullPacket with
    | .error _ => .error "failed to unmarshal CNAME"
    | .ok (cname, _) => .ok cname

/-- RR.SetRDATAToNSRecord. -/
def SetRDATAToNSRecord (rr : RR) (nameServer : List Nat) : Except String RR :=
  match MarshalName nameServer [] 0 with
  | .error e => .error e
  | .ok enc => .ok (SetRDATA { rr with Typ := 2 } enc)

/-- RR.GetRDATAAsNSRecord. -/
def GetRDATAAsNSRecord (rr : RR) : Except String (List Nat) :=
  if rr.Typ ≠ 2 then .error "record type is not NS type"
  else if rr.RDATA.length ≠ rr.RDLENGTH then .error "invalid NS record data length"
  else
    match UnmarshalName rr.RDATA 0 rr.fullPacket with
    | .error _ => .error "failed to unmarshal NS"
    | .ok (ns, _) => .ok ns

/-- RR.SetRDATAToPTRRecord. -/
def SetRDATAToPTRRecord (rr : RR) (ptrDomain : List Nat) : Except String RR :=
  match MarshalName ptrDomain [] 0 with
  | .error e => .error e
  | .ok enc => .ok (SetRDATA { rr with Typ := 12 } enc)

/-- RR.GetRDATAAsPTRRecord. -/
def GetRDATAAsPTRRecord (rr : RR) : Except String (List Nat) :=
  if rr.Typ ≠ 12 then .error "record type is not PTR type"
  else if rr.RDATA.length ≠ rr.RDLENGTH then .error "invalid PTR record data length"
  else
    match UnmarshalName rr.RDATA 0 rr.fullPacket with
    | .error _ => .error "failed to unmarshal PTR"
    | .ok (ptr, _) => .ok ptr

/-- utils.SplitStringIntoChunks at chunk size `size` (used for TXT data over
255 bytes). -/
def splitIntoChunks (size : Nat) : Nat → List Nat → List (List Nat)
  | 0, _ => []
  | _, [] => []
  | fuel + 1, l => l.take size :: splitIntoChunks size fuel (l.drop size)

/-- RR.SetRDATAToTXTRecord: length-prefixed chunks of at most 255 bytes. -/
def SetRDATAToTXTRecord (rr : RR) (text : List Nat) : RR :=
  if text.length > 255 then
    SetRDATA { rr with Typ := 16 }
      ((splitIntoChunks 255 (text.length + 1) text).foldl
        (fun d c => d ++ (c.length % 256) :: c) [])
  else SetRDATA { rr with Typ := 16 } ((text.length % 256) :: text)

/-- Scanning loop of RR.GetRDATAAsTXTRecord: the strings joined by the empty
separator, i.e. the concatenation of the length-prefixed segments. -/
def txtLoop (rdata : List Nat) : Nat → Nat → List Nat → Except String (List Nat)
  | 0, _, _ => .error "unreachable: loop fuel exhausted"
  | fuel + 1, offset, acc =>
    if offset < rdata.length then
      let strLen := rdata.getD offset 0
      if offset + 1 + strLen > rdata.length then
        .error "TXT string length exceeds available data"
      else txtLoop rdata fuel (offset + 1 + strLen) (acc ++ (rdata.drop (offset + 1)).take strLen)
    else .ok acc

/-- RR.GetRDATAAsTXTRecord. -/
def GetRDATAAsTXTRecord (rr : RR) : Except String (List Nat) :=
  if rr.Typ ≠ 16 then .error "record type is not TXT type"
  else if rr.RDATA.length ≠ rr.RDLENGTH then .error "invalid TXT record data length"
  else txtLoop rr.RDATA (rr.RDATA.length + 1) 0 []

/-- RR.GetRDATAAsSOARecord: MNAME, RNAME, then five big-endian uint32s. -/
def GetRDATAAsSOARecord (rr : RR) :
    Except String (List Nat × List Nat × Nat × Nat × Nat × Nat × Nat) :=
  if rr.Typ ≠ 6 then .error "record type is not SOA type"
  else if rr.RDATA.length ≠ rr.RDLENGTH then .error "invalid SOA record data length"
  else
    match UnmarshalName rr.RDATA 0 rr.fullPacket with
    | .error _ => .error "failed to unmarshal SOA MNAME"
    | .ok (mname, br1) =>
      if br1 ≥ rr.RDATA.length then .error "unexpected end of SOA record data"
      else
        match UnmarshalName (rr.RDATA.drop br1) 0 rr.fullPacket with
        | .error _ => .error "failed to unmarshal SOA RNAME"
        | .ok (rname, br2) =>
          if rr.RDATA.length - (br1 + br2) < 20 then
            .error "SOA record data too short, missing uint32 fields"
          else
            .ok (mname, rname, readU32 rr.RDATA (br1 + br2),
              readU32 rr.RDATA (br1 + br2 + 4), readU32 rr.RDATA (br1 + br2 + 8),
              readU32 rr.RDATA (br1 + br2 + 12), readU32 rr.RDATA (br1 + br2 + 16))

/-- RR.SetRDATAToSOARecord. -/
def SetRDATAToSOARecord (rr : RR) (mname rname : List Nat)
    (serial refresh retry expire minimum : Nat) : Except String RR :=
  match MarshalName mname [] 0 with
  | .error e => .error e
  | .ok em =>
    match MarshalName rname em em.length with
    | .error e => .error e
    | .ok er =>
      .ok (SetRDATA { rr with Typ := 6 }
        (em ++ er ++ u32be serial ++ u32be refresh ++ u32be retry ++ u32be expire ++
          u32be minimum))

/-- RR.CopyRR: start from the zero record, copy name, class and TTL, then
re-encode the rdata through the typed accessor and setter for the record's
type; unrecognised types copy the raw rdata. -/
def CopyRR (old : RR) : Except String RR :=
  let c0 : RR := { emptyRR with Name := old.Name, Class := old.Class }
  match SetTTL c0 (old.TTL : Int) with
  | .error _ => .error "failed to set TTL"
  | .ok c1 =>
    if old.Typ = 1 then
      match GetRDATAAsARecord old with
      | .error _ => .error "failed to get A record"
      | .ok ip => .ok (SetRDATAToARecord c1 ip)
    else if old.Typ = 2 then
      match GetRDATAAsNSRecord old with
      | .error _ => .error "failed to get NS record"
      | .ok ns =>
        match SetRDATAToNSRecord c1 ns with
        | .error _ => .error "failed to set NS record"
        | .ok c2 => .ok c2
    else if old.Typ = 5 then
      match GetRDATAAsCNAMERecord old with
      | .error _ => .error "failed to get CNAME record"
      | .ok cname =>
        match SetRDATAToCNAMERecord c1 cname with
        | .error _ => .error "failed to set CNAME record"
        | .ok c2 => .ok c2
    else if old.Typ = 6 then
      match GetRDATAAsSOARecord old with
      | .error _ => .error "failed to get SOA record"
      | .ok (mname, rname, serial, refresh, retry, expire, minimum) =>
        match SetRDATAToSOARecord c1 mname rname serial refresh retry expire minimum with
        | .error _ => .error "failed to set SOA record"
        | .ok c2 => .ok c2
    else if old.Typ = 15 then
      match GetRDATAAsMXRecord old with
      | .error _ => .error "failed to get MX record"
      | .ok (preference, exchange) =>
        match SetRDATAToMXRecord c1 preference exchange with
        | .error _ => .error "failed to set MX record"
        | .ok c2 => .ok c2
    else if old.Typ = 16 then
      match GetRDATAAsTXTRecord old with
      | .error _ => .error "failed to get TXT record"
      | .ok text => .ok (SetRDATAToTXTRecord c1 text)
    else if old.Typ = 12 then
      match GetRDATAAsPTRRecord old with
      | .error _ => .error "failed to get PTR record"
      | .ok ptr =>
        match SetRDATAToPTRRecord c1 ptr with
        | .error _ => .error "failed to set PTR record"
        | .ok c2 => .ok c2
    else .ok (SetRDATA { c1 with Typ := old.Typ } old.RDATA)

/-- Message.Message (current internal Message package, part_003). -/
structure Message where
  Questions : List Question
  Answers : List RR
  Authority : List RR
  Additional : List RR
  Header : Header
deriving DecidableEq

/-- Question-marshalling loop of Message.MarshalBinary: first error wins,
otherwise the encodings are appended in order. -/
def marshalQuestions : List Question → Except String (List Nat)
  | [] => .ok []
  | q :: rest =>
    match questionMarshal q with
    | .error e => .error e
    | .ok b =>
      match marshalQuestions rest with
      | .error e => .error e
      | .ok bs => .ok (b ++ bs)

/-- RR.MarshalBinary: compressed name against an empty packet, then type,
class, TTL, RDLENGTH and the raw RDATA. -/
def rrMarshalBinary (rr : RR) : Except String (List Nat) :=
  match MarshalName rr.Name [] 0 with
  | .error e => .error e
  | .ok nameBytes =>
    .ok (nameBytes ++ u16be rr.Typ ++ u16be rr.Class ++ u32be rr.TTL ++
      u16be rr.RDLENGTH ++ rr.RDATA)

/-- Record-marshalling loop of Message.MarshalBinary. -/
def marshalSection : List RR → Except String (List Nat)
  | [] => .ok []
  | r :: rest =>
    match rrMarshalBinary r with
    | .error e => .error e
    | .ok b =>
      match marshalSection rest with
      | .error e => .error e
      | .ok bs => .ok (b ++ bs)

/-- Message.MarshalBinary (part_003): the stored header bytes, then the four
sections in order.  The header's stored counts are emitted as they are. -/
def messageMarshalBinary (msg : Message) : Except String (List Nat) :=
  match marshalQuestions msg.Questions with
  | .error e => .error e
  | .ok qb =>
    match marshalSection msg.Answers with
    | .error e => .error e
    | .ok ab =>
      match marshalSection msg.Authority with
      | .error e => .error e
      | .ok authb =>
        match marshalSection msg.Additional with
        | .error e => .error e
        | .ok addb =>
          .ok (headerMarshalBinary msg.Header ++ qb ++ ab ++ authb ++ addb)

/-- Section-copying loop of Message.Copy: CopyRR on each record, first error
wins. -/
def copySection : List RR → Except String (List RR)
  | [] => .ok []
  | r :: rest =>
    match CopyRR r with
    | .error e => .error e
    | .ok r2 =>
      match copySection rest with
      | .error e => .error e
      | .ok rest2 => .ok (r2 :: rest2)

/-- Message.Copy (part_003): header and Questions taken from the source as
they are, RR sections deep-copied via CopyRR, then ANCOUNT, ARCOUNT and
NSCOUNT reseated (in that order) to the cloned section lengths. -/
def Copy (source : Option Message) : Except String Message :=
  match source with
  | none => .error "copy got nil message"
  | some source =>
    match copySection source.Answers with
    | .error _ => .error "failed to copy answer record"
    | .ok answers =>
      match copySection source.Authority with
      | .error _ => .error "failed to copy authority record"
      | .ok authority =>
        match copySection source.Additional with
        | .error _ => .error "failed to copy additional record"
        | .ok additional =>
          match SetANCOUNT source.Header (answers.length : Int) with
          | .error e => .error e
          | .ok h1 =>
            match SetARCOUNT h1 (additional.length : Int) with
            | .error e => .error e
            | .ok h2 =>
              match SetNSCOUNT h2 (authority.length : Int) with
              | .error e => .error e
              | .ok h3 =>
                .ok { Questions := source.Questions, Answers := answers,
                      Authority := authority, Additional := additional,
                      Header := h3 }

/-! ## Cache model (internal/DNS_Class cache package)

The Go cache key is the string "domain:type"; the model keys by the pair of
the domain bytes and the type, which carries the same information.  The map
is an association list whose head shadows older entries, and wall-clock
instants are seconds as Nat, passed explicitly where the Go code reads
time.Now(). -/

/-- cache.cachedResponse. -/
structure cachedResponse where
  message : Message
  expiresAt : Nat
deriving DecidableEq

/-- The cache key: the domain bytes and the question type. -/
def CacheKey : Type := List Nat × Nat

instance : DecidableEq CacheKey := by
  unfold CacheKey; infer_instance

/-- Map lookup on the association-list cache. -/
def cacheFind (c : List (CacheKey × cachedResponse)) (key : CacheKey) :
    Option cachedResponse :=
  match c with
  | [] => none
  | e :: rest => if e.1 = key then some e.2 else cacheFind rest key

/-- DNSCache.Get at the explicit instant `now`: the stored message when the
key is present and now is not after the entry's expiry.  Read-only: the
store is not part of the result. -/
def cacheGet (c : List (CacheKey × cachedResponse)) (key : CacheKey) (now : Nat) :
    Option Message :=
  match cacheFind c key with
  | none => none
  | some entry => if now > entry.expiresAt then none else some entry.message

/-- Minimum-TTL fold of DNSCache.Put, starting from MaxUint32. -/
def minAnswerTTL (answers : List RR) : Nat :=
  answers.foldl (fun minTTL answer => if answer.TTL < minTTL then answer.TTL else minTTL)
    4294967295

/-- DNSCache.Put at the explicit instant `now`: skips nil messages, messages
without answers, messages whose header QDCOUNT is zero, and zero minimum
TTLs; otherwise stores with expiry now + min(minimum answer TTL, 3600 s). -/
def cachePut (c : List (CacheKey × cachedResponse)) (key : CacheKey)
    (msg : Option Message) (now : Nat) : List (CacheKey × cachedResponse) :=
  match msg with
  | none => c
  | some m =>
    if m.Answers.length = 0 then c
    else if GetQDCOUNT m.Header = 0 then c
    else
      let minTTL := minAnswerTTL m.Answers
      if minTTL = 0 then c
      else
        let cacheTTL := if minTTL > 3600 then 3600 else minTTL
        (key, { message := m, expiresAt := now + cacheTTL }) :: c

/-! ## Resolver model (part_007 DNSServer)

Network and mutual-recursion boundaries become oracle fields of an
environment: SetRandomID's draw, the UDP exchange with a nameserver
(send, receive and Message.New combined), the TCP retry, handleCNAMEs and
extractAuthorityNameservers (both of which recurse through the resolver in
Go), and the upstream forwarder.  Everything between those boundaries is
translated from the source. -/

/-- DNSServer.RootServer. -/
structure RootServer where
  Name : List Nat
  IP : List Nat
deriving DecidableEq

/-- Oracles for the resolver's effects. -/
structure ResolverEnv where
  randomId : Header → Except String Header
  exchange : List Nat → List Nat → Except String Message
  tcpQuery : List Nat → Message → Except String Message
  handleC : List Nat → Nat → Message → Option Message
  extractAuth : List Nat → Message → List RootServer × Bool
  forward : List Nat → Except String (Option Message)
  rootServers : List RootServer

/-- Message.IsNoErrWithMatchingID: the valid-response predicate, RCODE ==
NoError and transaction id equal to the outbound id (spec-modelled: the Go
body of this method is not among the repository's files; the spec states the
predicate as this conjunction). -/
def isNoErrWithMatchingID (m : Message) (id : Nat) : Bool :=
  GetRCODE m.Header == 0 && GetMessageID m.Header == id

/-- Message.CreateDNSQuery: fresh random id, QR=0, RD as requested, one
question added through AddQuestion (which increments QDCOUNT). -/
def CreateDNSQuery (env : ResolverEnv) (name : List Nat) (qtype : Nat) (qclass : Nat)
    (desireRecursion : Bool) : Except String Message :=
  match env.randomId emptyHeader with
  | .error e => .error e
  | .ok h0 =>
    let h1 := SetRD (SetQRFlag h0 false) desireRecursion
    match SetQDCOUNT h1 ((GetQDCOUNT h1 : Int) + 1) with
    | .error e => .error e
    | .ok h2 =>
      .ok { Questions := [{ Name := name, Typ := qtype, Class := qclass }],
            Answers := [], Authority := [], Additional := [], Header := h2 }

/-- DNSServer.queryNameserver: re-randomise the query id, marshal, exchange
over UDP, validate the response with IsNoErrWithMatchingID, and retry over
TCP when the response is truncated.  Returns the (mutated) query together
with the response, mirroring the Go pointer mutation of the query header. -/
def queryNameserver (env : ResolverEnv) (serverIP : List Nat) (query : Message) :
    Except String (Message × Message) :=
  match env.randomId query.Header with
  | .error e => .error e
  | .ok h =>
    match messageMarshalBinary { query with Header := h } with
    | .error _ => .error "failed to marshal query"
    | .ok queryData =>
      match env.exchange serverIP queryData with
      | .error e => .error e
      | .ok response =>
        if isNoErrWithMatchingID response (GetMessageID h) = false then
          .error "resolveNameserver got invalid response from forwardToResolver"
        else if IsTC response.Header then
          match env.tcpQuery serverIP { query with Header := h } with
          | .error e => .error e
          | .ok r2 => .ok ({ query with Header := h }, r2)
        else .ok ({ query with Header := h }, response)

/-- DNSServer.resolveWithNameservers (part_007): fuel-indexed model of the
recursion; every recursive call of the source decreases the fuel.  The
candidate-advancing error paths, the validity check, the CNAME block, the
authoritative-answer return, the SOA return and the delegation step follow
the source's branch order. -/
def resolveWithNameservers (env : ResolverEnv) (domain : List Nat) (questionType : Nat) :
    List RootServer → Nat → Nat → Except String Message
  | _, _, 0 => .error "unreachable: recursion fuel exhausted"
  | nameservers, delegationCount, fuel + 1 =>
    if delegationCount ≥ 10 then .error "exceeded maximum delegation count"
    else
      match nameservers with
      | [] => .error "no nameservers available to query"
      | server :: remainingServers =>
        match CreateDNSQuery env domain questionType 1 false with
        | .error _ =>
          resolveWithNameservers env domain questionType remainingServers delegationCount fuel
        | .ok nsQuery0 =>
          match env.randomId nsQuery0.Header with
          | .error _ =>
            resolveWithNameservers env domain questionType remainingServers delegationCount fuel
          | .ok h =>
            match queryNameserver env server.IP { nsQuery0 with Header := h } with
            | .error _ =>
              resolveWithNameservers env domain questionType remainingServers delegationCount fuel
            | .ok (nsQuery, nsResp) =>
              if isNoErrWithMatchingID nsResp (GetMessageID nsQuery.Header) = false then
                .error "resolveNameserver got invalid response from nameserver"
              else if questionType ≠ 5 ∧ GetANCOUNT nsResp.Header > 0 then
                if nsResp.Answers.length ≠ GetANCOUNT nsResp.Header then
                  resolveWithNameservers env domain questionType remainingServers
                    delegationCount fuel
                else
                  match env.handleC domain questionType nsResp with
                  | some cnameResult => .ok cnameResult
                  | none =>
                    if IsAA nsResp.Header ∧ nsResp.Answers.length > 0 ∧
                        GetANCOUNT nsResp.Header ≠ 0 then
                      if nsResp.Answers.length ≠ GetANCOUNT nsResp.Header then
                        resolveWithNameservers env domain questionType remainingServers
                          delegationCount fuel
                      else .ok nsResp
                    else if nsResp.Authority.any (fun auth => auth.Typ == 6) then .ok nsResp
                    else
                      match env.extractAuth domain nsResp with
                      | (nextNameservers, true) =>
                        resolveWithNameservers env domain questionType nextNameservers
                          (delegationCount + 1) fuel
                      | (_, false) =>
                        if remainingServers.length > 0 then
                          resolveWithNameservers env domain questionType remainingServers
                            delegationCount fuel
                        else .error "all nameservers exhausted without finding an answer"
              else
                if IsAA nsResp.Header ∧ nsResp.Answers.length > 0 ∧
                    GetANCOUNT nsResp.Header ≠ 0 then
                  if nsResp.Answers.length ≠ GetANCOUNT nsResp.Header then
                    resolveWithNameservers env domain questionType remainingServers
                      delegationCount fuel
                  else .ok nsResp
                else if nsResp.Authority.any (fun auth => auth.Typ == 6) then .ok nsResp
                else
                  match env.extractAuth domain nsResp with
                  | (nextNameservers, true) =>
                    resolveWithNameservers env domain questionType nextNameservers
                      (delegationCount + 1) fuel
                  | (_, false) =>
                    if remainingServers.length > 0 then
                      resolveWithNameservers env domain questionType remainingServers
                        delegationCount fuel
                    else .error "all nameservers exhausted without finding an answer"

/-- Header updates of resolveRecursively on the copied response: id from the
query, QR=1, RA=1, AA from the walk result, and the three count reseats whose
errors the source only logs (the header is left as it was on error). -/
def reseatOrKeep (h : Header) (set : Header → Int → Except String Header) (v : Nat) :
    Header :=
  match set h (v : Int) with
  | .error _ => h
  | .ok h2 => h2

/-- DNSServer.resolveRecursively (part_007): cache probe, iterative walk
from the root servers, fallback to the upstream forwarder when the walk
fails (provided the fallback query marshals), response copying and header
fix-up, and the cache write.  Returns the result paired with the updated
cache. -/
def resolveRecursively (env : ResolverEnv) (cache : List (CacheKey × cachedResponse))
    (now : Nat) (query : Option Message) (fuel : Nat) :
    Except String (Option Message) × List (CacheKey × cachedResponse) :=
  match query with
  | none => (.error "recursive resolver got nil query", cache)
  | some query =>
    if ¬ (query.Questions.length = 1 ∧ GetQDCOUNT query.Header = 1) then
      (.error "recursive resolution only supports single question queries", cache)
    else
      let q1 := query.Questions.headD defaultQuestion
      let cacheKey : CacheKey := (q1.Name, q1.Typ)
      match cacheGet cache cacheKey now with
      | some che =>
        (.ok (some { che with Header := { che.Header with ID := query.Header.ID } }), cache)
      | none =>
        match resolveWithNameservers env q1.Name q1.Typ env.rootServers 0 fuel with
        | .error _ =>
          match messageMarshalBinary { query with Header := SetQRFlag query.Header false } with
          | .error _ => (.error "failed to marshal fallback query", cache)
          | .ok queryData => (env.forward queryData, cache)
        | .ok result =>
          match Copy (some result) with
          | .error _ => (.error "failed to copy a response", cache)
          | .ok response0 =>
            let h0 := SetAA (SetRA (SetQRFlag { response0.Header with ID := query.Header.ID }
              true) true) (IsAA result.Header)
            let h1 := reseatOrKeep h0 SetANCOUNT response0.Answers.length
            let h2 := reseatOrKeep h1 SetNSCOUNT response0.Authority.length
            let h3 := reseatOrKeep h2 SetARCOUNT response0.Additional.length
            let response := { response0 with Header := h3 }
            (.ok (some response), cachePut cache cacheKey (some response) now)

/-- Datagram send stage of handleDNSRequest (part_007): marshal, and when
the encoding exceeds 512 bytes set TC and re-marshal. -/
def udpRespond (resp : Message) : Except String (List Nat) :=
  match messageMarshalBinary resp with
  | .error e => .error e
  | .ok respData =>
    if respData.length > 512 then
      match messageMarshalBinary { resp with Header := SetTC resp.Header true } with
      | .error e => .error e
      | .ok respData2 => .ok respData2
    else .ok respData

/-- Stream send stage of processDNSRequestTCP (app/Message.go): clear TC and
marshal. -/
def tcpRespond (resp : Message) : Except String (List Nat) :=
  messageMarshalBinary { resp with Header := SetTC resp.Header false }

/-- C4 counterexample message: empty sections but a stored ANCOUNT of 7. -/
def c4Msg : Message :=
  { Questions := [], Answers := [], Authority := [], Additional := [],
    Header := { ID := 0, Flags0 := 0, Flags1 := 0, QDCOUNT := 0, ANCOUNT := 7,
                NSCOUNT := 0, ARCOUNT := 0 } }

/-- A nameserver response carrying RCODE 3 (NXDOMAIN) with the matching
transaction id 42. -/
def c5Resp : Message := ⟨[], [], [], [], ⟨42, 0, 3, 0, 0, 0, 0⟩⟩

/-- Environment whose nameserver exchange always returns the NXDOMAIN
response `c5Resp` and whose id draw is the constant 42. -/
def c5Env : ResolverEnv where
  randomId := fun h => .ok { h with ID := 42 }
  exchange := fun _ _ => .ok c5Resp
  tcpQuery := fun _ _ => .error "tcp unavailable"
  handleC := fun _ _ _ => none
  extractAuth := fun _ _ => ([], false)
  forward := fun _ => .ok none
  rootServers := []

/-- A 256-byte domain name, rejected by ValidateName. -/
def c6Name : List Nat := List.replicate 256 97

/-- Query whose single question carries the over-long name `c6Name`. -/
def c6Query : Message := ⟨[⟨c6Name, 1, 1⟩], [], [], [], ⟨5, 0, 0, 1, 0, 0, 0⟩⟩

/-- Query with a well-formed one-byte question name. -/
def c6GoodQuery : Message := ⟨[⟨[97], 1, 1⟩], [], [], [], ⟨5, 0, 0, 1, 0, 0, 0⟩⟩

/-- The marshalled bytes of `c6GoodQuery` with QR cleared. -/
def c6QueryBytes : List Nat :=
  [0, 5, 0, 0, 0, 1, 0, 0, 0, 0, 0, 0, 1, 97, 0, 0, 1, 0, 1]

/-- Environment with no root servers, so the iterative walk always fails. -/
def c6Env : ResolverEnv where
  randomId := fun h => .ok { h with ID := 7 }
  exchange := fun _ _ => .error "network unavailable"
  tcpQuery := fun _ _ => .error "network unavailable"
  handleC := fun _ _ _ => none
  extractAuth := fun _ _ => ([], false)
  forward := fun _ => .ok none
  rootServers := []

/-- Cacheable message: one answer with TTL 60, QDCOUNT 1. -/
def c7Msg : Message := ⟨[], [⟨[], [], [], 1, 1, 60, 0⟩], [], [], ⟨0, 0, 0, 1, 0, 0, 0⟩⟩

/-- Response whose encoding exceeds 512 bytes: one record with 600 rdata
bytes. -/
def c9Msg : Message :=
  ⟨[], [⟨[97], [], List.replicate 600 1, 16, 1, 60, 600⟩], [], [], ⟨0, 0, 0, 0, 1, 0, 0⟩⟩

/-- The encoding of `c9Msg` past the header. -/
def c9Bytes : List Nat :=
  [1, 97, 0] ++ u16be 16 ++ u16be 1 ++ u32be 60 ++ u16be 600 ++ List.replicate 600 1

/-- Copy source: one A-record answer, stored counts deliberately wrong. -/
def c10Src : Message :=
  ⟨[⟨[97], 1, 1⟩], [⟨[97], [], [1, 2, 3, 4], 1, 1, 60, 4⟩], [], [], ⟨9, 5, 3, 1, 7, 7, 7⟩⟩

/-- The value Copy produces from `c10Src`. -/
def c10Copy : Message :=
  ⟨[⟨[97], 1, 1⟩], [⟨[97], [], [1, 2, 3, 4], 1, 1, 60, 4⟩], [], [], ⟨9, 5, 3, 1, 1, 0, 0⟩⟩

/-! ## List helper lemmas -/

theorem getD_of_drop_cons {l : List Nat} {n x : Nat} {xs : List Nat}
    (h : l.drop n = x :: xs) (d : Nat) : l.getD n d = x := by
  have h1 : l[n]? = (l.drop n)[0]? := by simp [List.getElem?_drop]
  simp [List.getD_eq_getElem?_getD, h1, h]

theorem drop_succ_of_drop_cons {l : List Nat} {n x : Nat} {xs : List Nat}
    (h : l.drop n = x :: xs) : l.drop (n + 1) = xs := by
  have := List.drop_drop 1 n l
  rw [← this, h]
  rfl

theorem lt_length_of_drop_cons {l : List Nat} {n x : Nat} {xs : List Nat}
    (h : l.drop n = x :: xs) : n < l.length := by
  by_contra hn
  rw [List.drop_eq_nil_of_le (by omega)] at h
  exact absurd h (by simp)

theorem drop_add_of_drop_append {l : List Nat} {n : Nat} {a rest : List Nat}
    (h : l.drop n = a ++ rest) : l.drop (n + a.length) = rest := by
  have := List.drop_drop a.length n l
  rw [← this, h, List.drop_left]

theorem take_of_drop_append {l : List Nat} {n : Nat} {a rest : List Nat}
    (h : l.drop n = a ++ rest) : (l.drop n).take a.length = a := by
  rw [h, List.take_left]

theorem add_length_le_of_drop_append {l : List Nat} {n : Nat} {a rest : List Nat}
    (h : l.drop n = a ++ rest) (ha : a ≠ []) : n + a.length ≤ l.length := by
  have hlen : (l.drop n).length = l.length - n := List.length_drop n l
  rw [h] at hlen
  simp only [List.length_append] at hlen
  have hn : n < l.length := by
    rcases a with _ | ⟨x, xs⟩
    · exact absurd rfl ha
    · exact lt_length_of_drop_cons (h.trans (List.cons_append x xs rest))
  omega

theorem length_dropWhile_le' (p : Nat → Bool) (l : List Nat) :
    (l.dropWhile p).length ≤ l.length := by
  induction l with
  | nil => simp
  | cons a as ih =>
    rw [List.dropWhile_cons]
    split
    · simp; omega
    · simp

/-! ## Bit-level helper lemmas -/

theorem fin64_or_facts :
    ∀ q : Fin 64, ((192 ||| (q : Nat)) &&& 192 = 192) ∧ ((192 ||| (q : Nat)) &&& 63 = (q : Nat)) := by
  decide

theorem fin64_not_ptr : ∀ q : Fin 64, ¬(((q : Nat) &&& 192) = 192) := by
  decide

theorem label_byte_not_ptr {b : Nat} (hb : b ≤ 63) : ¬((b &&& 192) = 192) :=
  fin64_not_ptr ⟨b, by omega⟩

theorem shift_or_mod (m : Nat) : ((m >>> 8) <<< 8) ||| (m % 256) = m := by
  have h1 : m >>> 8 = m / 256 := by rw [Nat.shiftRight_eq_div_pow]
  have h2 : (m / 256) <<< 8 = 2 ^ 8 * (m / 256) := by rw [Nat.shiftLeft_eq]; ring
  have h3 : m % 256 < 2 ^ 8 := by omega
  rw [h1, h2, ← Nat.mul_add_lt_is_or h3 (m / 256)]
  omega

theorem pointer_first_byte {m : Nat} (hm : m ≤ 16383) :
    ((192 ||| ((m >>> 8) % 256)) &&& 192 = 192) ∧
    ((192 ||| ((m >>> 8) % 256)) &&& 63 = (m >>> 8) % 256) := by
  have hq : (m >>> 8) % 256 < 64 := by
    have : m >>> 8 = m / 256 := by rw [Nat.shiftRight_eq_div_pow]
    omega
  exact fin64_or_facts ⟨(m >>> 8) % 256, hq⟩

theorem decode_pointer_bytes {m : Nat} (hm : m ≤ 16383) :
    (((192 ||| ((m >>> 8) % 256)) &&& 63) <<< 8) ||| (m % 256) = m := by
  rw [(pointer_first_byte hm).2]
  have : (m >>> 8) % 256 = m >>> 8 := by
    have h : m >>> 8 = m / 256 := by rw [Nat.shiftRight_eq_div_pow]
    omega
  rw [this, shift_or_mod]

/-! ## Trimming helper lemmas -/

theorem dropWhile_eq_self_of_head {p : Nat → Bool} {l : List Nat}
    (h : l = [] ∨ ¬ p (l.headD 0) = true) : l.dropWhile p = l := by
  cases l with
  | nil => rfl
  | cons a as =>
    rcases h with h | h
    · exact absurd h (by simp)
    · simp only [List.headD_cons] at h
      simp [List.dropWhile_cons, h]

theorem trimSpace_eq_self {l : List Nat}
    (h1 : l = [] ∨ ¬ isSpaceByte (l.headD 0) = true)
    (h2 : l = [] ∨ ¬ isSpaceByte (l.getLastD 0) = true) : trimSpace l = l := by
  unfold trimSpace
  rw [dropWhile_eq_self_of_head h1]
  have hrev : l.reverse.dropWhile isSpaceByte = l.reverse := by
    apply dropWhile_eq_self_of_head
    rcases h2 with h2 | h2
    · left; simp [h2]
    · right
      cases l with
      | nil => simp [isSpaceByte]
      | cons a as =>
        have : (a :: as).reverse.headD 0 = (a :: as).getLastD 0 := by
          rw [List.headD_eq_head?_getD, List.head?_reverse, List.getLastD_eq_getLast?]
        rw [this]
        exact h2
  rw [hrev, List.reverse_reverse]

theorem head_not_space_of_good {l : List Nat} (hg : goodLabel l) :
    ¬ isSpaceByte (l.headD 0) = true := by
  obtain ⟨hne, _, _, htrim⟩ := hg
  intro hsp
  cases l with
  | nil => exact hne rfl
  | cons a as =>
    simp only [List.headD_cons] at hsp
    have hdrop : (a :: as).dropWhile isSpaceByte = as.dropWhile isSpaceByte := by
      simp [List.dropWhile_cons, hsp]
    have hlen1 : ((a :: as).dropWhile isSpaceByte).length ≤ as.length := by
      rw [hdrop]; exact length_dropWhile_le' _ _
    have hlen2 : (trimSpace (a :: as)).length ≤ ((a :: as).dropWhile isSpaceByte).length := by
      unfold trimSpace
      simp only [List.length_reverse]
      calc (List.dropWhile isSpaceByte ((a :: as).dropWhile isSpaceByte).reverse).length
          ≤ ((a :: as).dropWhile isSpaceByte).reverse.length := length_dropWhile_le' _ _
        _ = ((a :: as).dropWhile isSpaceByte).length := by simp
    rw [htrim] at hlen2
    simp at hlen2
    omega

theorem last_not_space_of_good {l : List Nat} (hg : goodLabel l) :
    ¬ isSpaceByte (l.getLastD 0) = true := by
  obtain ⟨hne, _, _, htrim⟩ := hg
  intro hsp
  cases hd : l.dropWhile isSpaceByte with
  | nil =>
    have : trimSpace l = [] := by unfold trimSpace; rw [hd]; rfl
    rw [htrim] at this
    exact hne this
  | cons c cs =>
    have hsuf : ∃ t, t ++ (c :: cs) = l := by
      have h := List.dropWhile_suffix (l := l) (p := isSpaceByte)
      rw [hd] at h
      exact h
    obtain ⟨t, ht⟩ := hsuf
    have hlast : (c :: cs).getLastD 0 = l.getLastD 0 := by
      rw [← ht, List.getLastD_eq_getLast?, List.getLastD_eq_getLast?,
        (List.getLast?_append_cons t c cs).symm]
    have hrevhead : (c :: cs).reverse.headD 0 = (c :: cs).getLastD 0 := by
      rw [List.headD_eq_head?_getD, List.head?_reverse, List.getLastD_eq_getLast?]
    cases hrev : (c :: cs).reverse with
    | nil => simp at hrev
    | cons b bs =>
      have hspb : isSpaceByte b = true := by
        have : b = (c :: cs).reverse.headD 0 := by rw [hrev]; rfl
        rw [this, hrevhead, hlast]
        exact hsp
      have hdroplen : ((c :: cs).reverse.dropWhile isSpaceByte).length ≤ bs.length := by
        rw [hrev, List.dropWhile_cons]
        simp only [hspb, if_true]
        exact length_dropWhile_le' _ _
      have hlen1 : (trimSpace l).length ≤ bs.length := by
        unfold trimSpace
        rw [hd]
        simpa using hdroplen
      have hlen2 : bs.length + 1 = (c :: cs).length := by
        have := congrArg List.length hrev
        simpa using this.symm
      have hlen3 : (c :: cs).length ≤ l.length := by
        rw [← ht]; simp
      rw [htrim] at hlen1
      omega

/-! ## joinDot and encoding lemmas -/

theorem joinDot_nil : joinDot [] = [] := by
  simp [joinDot, List.intercalate]

theorem joinDot_single (l : List Nat) : joinDot [l] = l := by
  simp [joinDot, List.intercalate]

theorem joinDot_cons (a b : List Nat) (t : List (List Nat)) :
    joinDot (a :: b :: t) = a ++ dot :: joinDot (b :: t) := by
  simp [joinDot, List.intercalate, List.intersperse]

theorem joinDot_append_nil {ls : List (List Nat)} (h : ls ≠ []) :
    joinDot (ls ++ [[]]) = joinDot ls ++ [dot] := by
  induction ls with
  | nil => exact absurd rfl h
  | cons a t ih =>
    cases t with
    | nil => simp [joinDot_cons, joinDot_single, joinDot_nil]
    | cons b t' =>
      have ih' := ih (by simp)
      simp only [List.cons_append] at ih' ⊢
      rw [joinDot_cons a b (t' ++ [[]]), ih', joinDot_cons a b t']
      simp

theorem joinDot_cons_ne_nil {l : List Nat} (hl : l ≠ []) (rest : List (List Nat)) :
    joinDot (l :: rest) ≠ [] := by
  cases rest with
  | nil => rw [joinDot_single]; exact hl
  | cons b t => rw [joinDot_cons]; simp [hl]

theorem headD_append_left {a b : List Nat} (ha : a ≠ []) (d : Nat) :
    (a ++ b).headD d = a.headD d := by
  cases a with
  | nil => exact absurd rfl ha
  | cons x xs => rfl

theorem headD_joinDot {l : List Nat} (hl : l ≠ []) (rest : List (List Nat)) (d : Nat) :
    (joinDot (l :: rest)).headD d = l.headD d := by
  cases rest with
  | nil => rw [joinDot_single]
  | cons b t => rw [joinDot_cons]; exact headD_append_left hl d

theorem getLast_not_space_of_good_labels {ls : List (List Nat)}
    (hg : ∀ l ∈ ls, goodLabel l) (hne : ls ≠ []) :
    ¬ isSpaceByte ((joinDot ls).getLastD 0) = true := by
  induction ls with
  | nil => exact absurd rfl hne
  | cons a t ih =>
    cases t with
    | nil =>
      rw [joinDot_single]
      exact last_not_space_of_good (hg a (by simp))
    | cons b t' =>
      rw [joinDot_cons]
      have hjne : joinDot (b :: t') ≠ [] := joinDot_cons_ne_nil (hg b (by simp)).1 t'
      have h1 : (a ++ dot :: joinDot (b :: t')).getLastD 0 = (joinDot (b :: t')).getLastD 0 := by
        rw [List.getLastD_eq_getLast?, List.getLastD_eq_getLast?, List.getLast?_append_cons]
        cases hj : joinDot (b :: t') with
        | nil => exact absurd hj hjne
        | cons y ys => rw [List.getLast?_cons_cons]
      rw [h1]
      exact ih (fun l hl => hg l (by simp [hl])) (by simp)

theorem trimSpace_name {labels : List (List Nat)} {name : List Nat} {td : Bool}
    (hg : GoodName labels name td) : trimSpace name = name := by
  obtain ⟨hne, hgood, hshape, _⟩ := hg
  cases hl : labels with
  | nil => exact absurd hl hne
  | cons l rest =>
    subst hl
    have hlne : l ≠ [] := (hgood l (by simp)).1
    apply trimSpace_eq_self
    · right
      rw [hshape]
      have hj : joinDot (l :: rest) ≠ [] := joinDot_cons_ne_nil hlne rest
      rw [headD_append_left hj, headD_joinDot hlne]
      have := head_not_space_of_good (hgood l (by simp))
      cases l with
      | nil => exact absurd rfl hlne
      | cons x xs => simpa using this
    · right
      rw [hshape]
      cases td with
      | true =>
        simp only [if_true]
        rw [List.getLastD_eq_getLast?, List.getLast?_append_cons, List.getLast?_singleton]
        decide
      | false =>
        simp only [Bool.false_eq_true, if_false, List.append_nil]
        exact getLast_not_space_of_good_labels hgood (by simp)

theorem splitOnDot_joinDot {ls : List (List Nat)} (hdot : ∀ l ∈ ls, dot ∉ l)
    (hne : ls ≠ []) : splitOnDot (joinDot ls) = ls :=
  List.splitOn_intercalate ls dot hdot hne

theorem splitOnDot_name {labels : List (List Nat)} {name : List Nat} {td : Bool}
    (hg : GoodName labels name td) :
    splitOnDot name = labels ++ (if td then [[]] else []) := by
  obtain ⟨hne, hgood, hshape, _⟩ := hg
  cases td with
  | false =>
    simp only [Bool.false_eq_true, if_false, List.append_nil] at hshape ⊢
    rw [hshape]
    exact splitOnDot_joinDot (fun l hl => (hgood l hl).2.2.1) hne
  | true =>
    simp only [if_true] at hshape ⊢
    rw [hshape, ← joinDot_append_nil hne]
    apply splitOnDot_joinDot
    · intro l hl
      rcases List.mem_append.mp hl with h | h
      · exact (hgood l h).2.2.1
      · simp at h; subst h; simp
    · simp

theorem encLabels_append_nil (ls : List (List Nat)) :
    encLabels (ls ++ [[]]) = encLabels ls := by
  induction ls with
  | nil => rfl
  | cons a t ih =>
    show encLabels (a :: (t ++ [[]])) = encLabels (a :: t)
    rw [encLabels, encLabels]
    simp only [ih]

theorem encLabels_eq_wireLabels {ls : List (List Nat)} (hg : ∀ l ∈ ls, goodLabel l) :
    encLabels ls = wireLabels ls := by
  induction ls with
  | nil => rfl
  | cons a t ih =>
    obtain ⟨hane, halen, _, hatrim⟩ := hg a (by simp)
    rw [encLabels, wireLabels]
    simp only [hatrim]
    have hpos : a.length > 0 := List.length_pos.mpr hane
    have hmod : a.length % 256 = a.length := Nat.mod_eq_of_lt (by omega)
    simp only [if_pos hpos, hmod]
    rw [ih (fun l hl => hg l (by simp [hl]))]

theorem validateName_ok {labels : List (List Nat)} {name : List Nat} {td : Bool}
    (hg : GoodName labels name td) : ValidateName name = .ok () := by
  obtain ⟨hne, hgood, hshape, hlen⟩ := hg
  have hsplit := splitOnDot_name ⟨hne, hgood, hshape, hlen⟩
  have hn0 : ¬ name.length = 0 := by
    cases hl : labels with
    | nil => exact absurd hl hne
    | cons l rest =>
      subst hl
      rw [hshape]
      have := joinDot_cons_ne_nil (hgood l (by simp)).1 rest
      simp [this]
  have hn255 : ¬ name.length > MaxDomainNameLength := by
    unfold MaxDomainNameLength; omega
  have hany : ((splitOnDot name).any
      (fun label => (trimSpace label).length > MaxLabelLength)) = false := by
    rw [hsplit, List.any_eq_false]
    intro l hl
    rcases List.mem_append.mp hl with h | h
    · obtain ⟨_, hlen63, _, htrim⟩ := hgood l h
      rw [htrim]
      simp [MaxLabelLength]
      omega
    · cases td with
      | true => simp at h; subst h; simp [MaxLabelLength, trimSpace]
      | false => simp at h
  unfold ValidateName
  rw [if_neg hn0, if_neg hn255, if_neg (by simp [hany])]

theorem encode_ok {labels : List (List Nat)} {name : List Nat} {td : Bool}
    (hg : GoodName labels name td) :
    EncodeDomainNameToLabel name = .ok (wireLabels labels ++ [0]) := by
  unfold EncodeDomainNameToLabel
  rw [validateName_ok hg]
  rw [trimSpace_name hg, splitOnDot_name hg]
  cases td with
  | false => simp [encLabels_eq_wireLabels hg.2.1]
  | true => simp [encLabels_append_nil, encLabels_eq_wireLabels hg.2.1]

theorem length_le_wireLabels (ls : List (List Nat)) :
    ls.length ≤ (wireLabels ls).length := by
  induction ls with
  | nil => simp [wireLabels]
  | cons a t ih => rw [wireLabels]; simp; omega

/-! ## Decoding lemmas -/

theorem appendAcc_spec :
    ∀ (labels : List (List Nat)) (acc : List Nat), (∀ l ∈ labels, l ≠ []) →
      appendAcc acc labels =
        if labels = [] then acc
        else if acc = [] then joinDot labels else acc ++ dot :: joinDot labels := by
  intro labels
  induction labels with
  | nil => intro acc _; rfl
  | cons l rest ih =>
    intro acc hne
    have hlne : l ≠ [] := hne l (by simp)
    have hrest : ∀ x ∈ rest, x ≠ [] := fun x hx => hne x (by simp [hx])
    rw [appendAcc]
    by_cases hacc : acc = []
    · subst hacc
      simp only [List.length_nil, gt_iff_lt, Nat.lt_irrefl, if_false, List.nil_append]
      rw [ih l hrest]
      cases rest with
      | nil => simp [joinDot_single, hlne]
      | cons b t => simp [joinDot_cons, hlne]
    · have hlen : acc.length > 0 := List.length_pos.mpr hacc
      simp only [hlen, if_true, gt_iff_lt]
      rw [ih (acc ++ dot :: l) (fun x hx => hne x (by simp [hx]))]
      cases rest with
      | nil => simp [joinDot_single, hacc]
      | cons b t =>
        simp only [List.cons_ne_nil, if_false, hacc]
        simp [joinDot_cons]

theorem unmarshalLoop_decodes :
    ∀ (labels : List (List Nat)) (full : List Nat) (start : Nat) (cur : List Nat)
      (offset : Nat) (acc : List Nat) (bc : Nat) (jumped : Bool) (pf : Nat)
      (fuel : Nat) (rest : List Nat),
      (∀ l ∈ labels, l ≠ [] ∧ l.length ≤ 63) →
      cur.drop offset = wireLabels labels ++ 0 :: rest →
      labels.length + 1 ≤ fuel →
      unmarshalLoop full start fuel cur offset acc bc jumped pf =
        .ok (appendAcc acc labels,
          if jumped then bc else offset + (wireLabels labels).length + 1 - start) := by
  intro labels
  induction labels with
  | nil =>
    intro full start cur offset acc bc jumped pf fuel rest _ hdrop hfuel
    cases fuel with
    | zero => omega
    | succ f =>
      simp only [wireLabels, List.nil_append] at hdrop
      have hlt : ¬ (offset ≥ cur.length) := by
        have := lt_length_of_drop_cons hdrop
        omega
      have hb : cur.getD offset 0 = 0 := getD_of_drop_cons hdrop 0
      rw [unmarshalLoop]
      simp only [hb, hlt, if_false, pointerMarker, MaxLabelLength, appendAcc]
      norm_num
      simp [wireLabels]
  | cons l rest' ih =>
    intro full start cur offset acc bc jumped pf fuel rest hgood hdrop hfuel
    cases fuel with
    | zero => simp at hfuel
    | succ f =>
      obtain ⟨hlne, hlen63⟩ := hgood l (by simp)
      have hlpos : 1 ≤ l.length := List.length_pos.mpr hlne
      have hdrop1 : cur.drop offset = l.length :: (l ++ (wireLabels rest' ++ 0 :: rest)) := by
        rw [hdrop, wireLabels]
        simp
      have hlt : ¬ (offset ≥ cur.length) := by
        have := lt_length_of_drop_cons hdrop1
        omega
      have hb : cur.getD offset 0 = l.length := getD_of_drop_cons hdrop1 0
      have hdrop2 : cur.drop (offset + 1) = l ++ (wireLabels rest' ++ 0 :: rest) :=
        drop_succ_of_drop_cons hdrop1
      have hbound : offset + 1 + l.length ≤ cur.length := by
        have := add_length_le_of_drop_append hdrop2 hlne
        omega
      have hpiece : (cur.drop (offset + 1)).take l.length = l := take_of_drop_append hdrop2
      have hdrop3 : cur.drop (offset + 1 + l.length) = wireLabels rest' ++ 0 :: rest :=
        drop_add_of_drop_append hdrop2
      have hrec := ih full start cur (offset + 1 + l.length)
        (if acc.length > 0 then acc ++ dot :: l else acc ++ l)
        (if jumped then bc else offset + 1 + l.length - start) jumped pf f rest
        (fun x hx => hgood x (by simp [hx])) hdrop3 (by simp at hfuel ⊢; omega)
      rw [unmarshalLoop]
      simp only [hb, hlt, if_false]
      rw [if_neg (by simpa [pointerMarker] using label_byte_not_ptr hlen63)]
      rw [if_neg (by simp [MaxLabelLength]; omega)]
      rw [if_neg (by omega)]
      rw [if_neg (by omega)]
      simp only [hb, hpiece]
      rw [hrec]
      have hname : appendAcc (if acc.length > 0 then acc ++ dot :: l else acc ++ l) rest' =
          appendAcc acc (l :: rest') := rfl
      rw [hname]
      cases jumped with
      | true => simp
      | false =>
        simp only [Bool.false_eq_true, if_false, wireLabels, Except.ok.injEq, Prod.mk.injEq]
        refine ⟨trivial, ?_⟩
        simp only [List.length_cons, List.length_append]
        omega

theorem decode_wire {labels : List (List Nat)} (hgood : ∀ l ∈ labels, goodLabel l)
    (hne : labels ≠ []) (full : List Nat) :
    UnmarshalName (wireLabels labels ++ [0]) 0 full =
      .ok (joinDot labels, (wireLabels labels).length + 1) := by
  have hlenB : (wireLabels labels ++ [0]).length = (wireLabels labels).length + 1 := by simp
  have hloop := unmarshalLoop_decodes labels full 0 (wireLabels labels ++ [0]) 0 [] 0 false 0
    (unmarshalFuel (wireLabels labels ++ [0]) full) []
    (fun l hl => ⟨(hgood l hl).1, (hgood l hl).2.1⟩)
    (by simp)
    (by
      unfold unmarshalFuel
      have := length_le_wireLabels labels
      simp only [hlenB]
      omega)
  have hacc : appendAcc [] labels = joinDot labels := by
    rw [appendAcc_spec labels [] (fun l hl => (hgood l hl).1)]
    simp [hne]
  have hjoin : joinDot labels ≠ [] := by
    cases hl : labels with
    | nil => exact absurd hl hne
    | cons a t => exact joinDot_cons_ne_nil (hgood a (by rw [hl]; simp)).1 t
  unfold UnmarshalName
  rw [if_neg (by simp only [hlenB]; omega)]
  rw [hloop]
  simp only [hacc]
  rw [if_neg (by simp [hjoin])]
  simp

theorem findFrom_some :
    ∀ (count i j : Nat) (packet nb : List Nat),
      findFrom packet nb i count = some j →
      sliceEq packet j nb = true ∧ i ≤ j ∧ j < i + count := by
  intro count
  induction count with
  | zero => intro i j packet nb h; simp [findFrom] at h
  | succ c ih =>
    intro i j packet nb h
    rw [findFrom] at h
    by_cases hs : sliceEq packet i nb = true
    · rw [if_pos hs] at h
      obtain rfl : i = j := by simpa using h
      exact ⟨hs, le_refl _, by omega⟩
    · rw [if_neg hs] at h
      obtain ⟨h1, h2, h3⟩ := ih (i + 1) j packet nb h
      exact ⟨h1, by omega, by omega⟩

theorem sliceEq_drop {packet nb : List Nat} {m : Nat} (h : sliceEq packet m nb = true) :
    packet.drop m = nb ++ (packet.drop (m + nb.length)) := by
  unfold sliceEq at h
  rw [beq_iff_eq] at h
  have hsplit := List.take_append_drop nb.length (packet.drop m)
  rw [h] at hsplit
  rw [← hsplit]
  congr 1
  rw [List.drop_drop]

theorem marshal_decode_aux :
    ∀ (todo goods : List (List Nat)) (packet B : List Nat) (q : Nat) (acc : List Nat)
      (bc : Nat) (fuel : Nat),
      (todo = goods ∨ todo = goods ++ [[]]) →
      (∀ l ∈ goods, goodLabel l) →
      (joinDot todo).length ≤ 255 →
      packet.length ≤ 16384 →
      B.drop q = marshalLabels packet todo →
      (marshalLabels packet todo).length + packet.length + 3 ≤ fuel →
      ∃ n, unmarshalLoop packet 0 fuel B q acc bc false 0 =
        .ok (appendAcc acc goods, n) := by
  intro todo
  induction todo with
  | nil =>
    intro goods packet B q acc bc fuel hdisj hgood h255 hpkt hdrop hfuel
    have hgnil : goods = [] := by
      rcases hdisj with h | h
      · exact h.symm
      · exact absurd h.symm (List.append_ne_nil_of_right_ne_nil goods (by simp))
    subst hgnil
    rw [show marshalLabels packet [] = [0] from rfl] at hdrop hfuel
    cases fuel with
    | zero => simp at hfuel
    | succ f =>
      have hlt : ¬ (q ≥ B.length) := by
        have := lt_length_of_drop_cons hdrop
        omega
      have hb : B.getD q 0 = 0 := getD_of_drop_cons hdrop 0
      refine ⟨q + 1, ?_⟩
      rw [unmarshalLoop]
      simp only [hb, hlt, if_false, pointerMarker, MaxLabelLength, appendAcc]
      try norm_num
  | cons t todo' ih =>
    intro goods packet B q acc bc fuel hdisj hgood h255 hpkt hdrop hfuel
    by_cases htrim : (trimSpace t).length = 0
    · -- the head label trims to empty: only possible as the final empty label
      have hcase : t = [] ∧ todo' = [] ∧ goods = [] := by
        rcases hdisj with h | h
        · cases goods with
          | nil => simp at h
          | cons g gs =>
            rw [List.cons.injEq] at h
            obtain ⟨rfl, rfl⟩ := h
            obtain ⟨hne, _, _, htr⟩ := hgood t (by simp)
            rw [htr] at htrim
            exact absurd (List.length_eq_zero.mp htrim) hne
        · cases goods with
          | nil =>
            simp at h
            exact ⟨h.1, h.2, rfl⟩
          | cons g gs =>
            simp only [List.cons_append, List.cons.injEq] at h
            obtain ⟨rfl, rfl⟩ := h
            obtain ⟨hne, _, _, htr⟩ := hgood t (by simp)
            rw [htr] at htrim
            exact absurd (List.length_eq_zero.mp htrim) hne
      obtain ⟨rfl, rfl, rfl⟩ := hcase
      have hml : marshalLabels packet [([] : List Nat)] = [0] := by
        rw [marshalLabels]
        simp [trimSpace, marshalLabels]
      rw [hml] at hdrop hfuel
      cases fuel with
      | zero => simp at hfuel
      | succ f =>
        have hlt : ¬ (q ≥ B.length) := by
          have := lt_length_of_drop_cons hdrop
          omega
        have hb : B.getD q 0 = 0 := getD_of_drop_cons hdrop 0
        refine ⟨q + 1, ?_⟩
        rw [unmarshalLoop]
        simp only [hb, hlt, if_false, pointerMarker, MaxLabelLength, appendAcc]
        norm_num
    · -- the head label is a good label g, goods = g :: gs
      have hstruct : ∃ gs, goods = t :: gs ∧
          (todo' = gs ∨ todo' = gs ++ [[]]) := by
        rcases hdisj with h | h
        · cases goods with
          | nil => simp at h
          | cons g gs =>
            rw [List.cons.injEq] at h
            exact ⟨gs, by rw [h.1], Or.inl h.2⟩
        · cases goods with
          | nil =>
            simp at h
            obtain ⟨h1, _⟩ := h
            subst h1
            simp [trimSpace] at htrim
          | cons g gs =>
            simp only [List.cons_append, List.cons.injEq] at h
            exact ⟨gs, by rw [h.1], Or.inr h.2⟩
      obtain ⟨gs, rfl, hdisj'⟩ := hstruct
      obtain ⟨htne, htlen, _, httrim⟩ := hgood t (by simp)
      have htpos : 1 ≤ t.length := List.length_pos.mpr htne
      have hml0 : marshalLabels packet (t :: todo') =
          match findNameMatch (joinDot (t :: todo')) packet with
          | some m => createPointer m
          | none => (t.length % 256) :: (t ++ marshalLabels packet todo') := by
        rw [marshalLabels]
        simp only [httrim]
        rw [if_neg (by omega)]
      cases hfind : findNameMatch (joinDot (t :: todo')) packet with
      | some m =>
        -- pointer emitted; the packet holds the wire form of t :: gs at m
        have hjne : joinDot (t :: todo') ≠ [] := joinDot_cons_ne_nil htne todo'
        have henc : EncodeDomainNameToLabel (joinDot (t :: todo')) =
            .ok (wireLabels (t :: gs) ++ [0]) := by
          rcases hdisj' with h | h
          · have hgn : GoodName (t :: gs) (joinDot (t :: todo')) false := by
              refine ⟨by simp, hgood, ?_, h255⟩
              rw [h]; simp
            exact encode_ok hgn
          · have hshape : joinDot (t :: todo') = joinDot (t :: gs) ++ [dot] := by
              rw [h, show t :: (gs ++ [[]]) = (t :: gs) ++ [[]] from rfl]
              exact joinDot_append_nil (by simp)
            have hgn : GoodName (t :: gs) (joinDot (t :: todo')) true :=
              ⟨by simp, hgood, by simpa using hshape, h255⟩
            exact encode_ok hgn
        have hfind' : findFrom packet (wireLabels (t :: gs) ++ [0]) 0
            (packet.length - (wireLabels (t :: gs) ++ [0]).length) = some m := by
          unfold findNameMatch at hfind
          rw [if_neg (by simp [hjne]), henc] at hfind
          exact hfind
        obtain ⟨hslice, _hm0, hmlt⟩ := findFrom_some _ 0 m packet _ hfind'
        have henclen : (wireLabels (t :: gs) ++ [0]).length ≤ packet.length := by
          by_contra hcl
          push_neg at hcl
          have hz : packet.length - (wireLabels (t :: gs) ++ [0]).length = 0 := by omega
          omega
        have hmplen : m < packet.length := by omega
        have hm16 : m ≤ 16383 := by omega
        have hpdrop : packet.drop m = wireLabels (t :: gs) ++
            0 :: packet.drop (m + (wireLabels (t :: gs) ++ [0]).length) := by
          rw [sliceEq_drop hslice]
          simp
        have hcp : createPointer m = [192 ||| ((m >>> 8) % 256), m % 256] := by
          unfold createPointer
          rw [if_neg (by omega)]
        have hml : marshalLabels packet (t :: todo') = [192 ||| ((m >>> 8) % 256), m % 256] := by
          rw [hml0, hfind]
          exact hcp
        rw [hml] at hdrop hfuel
        cases fuel with
        | zero => simp at hfuel
        | succ f =>
          have hlt : ¬ (q ≥ B.length) := by
            have := lt_length_of_drop_cons hdrop
            omega
          have hb : B.getD q 0 = 192 ||| ((m >>> 8) % 256) := getD_of_drop_cons hdrop 0
          have hdropq1 : B.drop (q + 1) = [m % 256] := drop_succ_of_drop_cons hdrop
          have hb1 : B.getD (q + 1) 0 = m % 256 := getD_of_drop_cons hdropq1 0
          have hq2 : B.length = q + 2 := by
            have h1 := congrArg List.length hdrop
            rw [List.length_drop] at h1
            simp at h1
            omega
          have hloop := unmarshalLoop_decodes (t :: gs) packet 0 packet m acc (q - 0 + 2)
            true 1 f (packet.drop (m + (wireLabels (t :: gs) ++ [0]).length))
            (fun x hx => ⟨(hgood x hx).1, (hgood x hx).2.1⟩)
            hpdrop
            (by
              have hle := length_le_wireLabels (t :: gs)
              simp only [List.length_append, List.length_singleton] at henclen
              simp at hfuel
              omega)
          refine ⟨q - 0 + 2, ?_⟩
          rw [unmarshalLoop]
          simp only [hb, hlt, if_false]
          rw [if_pos (show (((192 ||| ((m >>> 8) % 256)) &&& pointerMarker ==
              pointerMarker) = true) by
            simp only [pointerMarker, beq_iff_eq]
            exact (pointer_first_byte hm16).1)]
          rw [if_neg (show ¬ (q + 1 ≥ B.length) by omega)]
          simp only [hb1, Bool.false_eq_true, if_false, decode_pointer_bytes hm16]
          rw [if_neg (show ¬ (m ≥ packet.length) by omega)]
          rw [if_neg (show ¬ (0 + 1 > maxPointers) by simp [maxPointers])]
          simp only [Nat.zero_add]
          rw [hloop]
          simp
      | none =>
        have hmod : t.length % 256 = t.length := Nat.mod_eq_of_lt (by omega)
        have hml : marshalLabels packet (t :: todo') =
            t.length :: (t ++ marshalLabels packet todo') := by
          rw [hml0, hfind, hmod]
        rw [hml] at hdrop hfuel
        cases fuel with
        | zero => simp at hfuel
        | succ f =>
          have hlt : ¬ (q ≥ B.length) := by
            have := lt_length_of_drop_cons hdrop
            omega
          have hb : B.getD q 0 = t.length := getD_of_drop_cons hdrop 0
          have hdrop2 : B.drop (q + 1) = t ++ marshalLabels packet todo' :=
            drop_succ_of_drop_cons hdrop
          have hbound : q + 1 + t.length ≤ B.length := by
            have := add_length_le_of_drop_append hdrop2 htne
            omega
          have hpiece : (B.drop (q + 1)).take t.length = t := take_of_drop_append hdrop2
          have hdrop3 : B.drop (q + 1 + t.length) = marshalLabels packet todo' :=
            drop_add_of_drop_append hdrop2
          have h255' : (joinDot todo').length ≤ 255 := by
            cases htd : todo' with
            | nil => simp [joinDot_nil]
            | cons b bt =>
              rw [htd] at h255
              rw [joinDot_cons] at h255
              simp at h255
              omega
          obtain ⟨n, hrec⟩ := ih gs packet B (q + 1 + t.length)
            (if acc.length > 0 then acc ++ dot :: t else acc ++ t)
            (q + 1 + t.length - 0) f hdisj'
            (fun x hx => hgood x (by simp [hx])) h255' hpkt hdrop3
            (by simp at hfuel ⊢; omega)
          refine ⟨n, ?_⟩
          rw [unmarshalLoop]
          simp only [hb, hlt, if_false]
          rw [if_neg (by simpa [pointerMarker] using label_byte_not_ptr htlen)]
          rw [if_neg (by simp [MaxLabelLength]; omega)]
          rw [if_neg (by omega)]
          rw [if_neg (by omega)]
          simp only [hb, hpiece, Bool.false_eq_true, if_false]
          rw [hrec]
          rfl

theorem headD_name {labels : List (List Nat)} {name : List Nat} {td : Bool}
    (hg : GoodName labels name td) : name ≠ [] ∧ name.headD 0 ≠ dot := by
  obtain ⟨hne, hgood, hshape, _⟩ := hg
  cases hl : labels with
  | nil => exact absurd hl hne
  | cons l rest =>
    subst hl
    have hlne : l ≠ [] := (hgood l (by simp)).1
    have hj : joinDot (l :: rest) ≠ [] := joinDot_cons_ne_nil hlne rest
    constructor
    · rw [hshape]
      intro hcon
      exact hj (List.append_eq_nil.mp hcon).1
    · rw [hshape, headD_append_left hj, headD_joinDot hlne]
      have hdl : dot ∉ l := (hgood l (by simp)).2.2.1
      cases l with
      | nil => exact absurd rfl hlne
      | cons x xs =>
        simp only [List.headD_cons]
        intro hx
        subst hx
        exact hdl (List.mem_cons_self _ _)

theorem marshalName_ok {labels : List (List Nat)} {name : List Nat} {td : Bool}
    (hg : GoodName labels name td) (packet : List Nat) (off : Nat) :
    MarshalName name packet off =
      .ok (marshalLabels packet (labels ++ (if td then [[]] else []))) := by
  obtain ⟨hne0, hd0⟩ := headD_name hg
  unfold MarshalName
  rw [validateName_ok hg]
  rw [if_neg (by
    rintro (h | h)
    · exact hne0 h
    · rw [h] at hd0; exact hd0 rfl)]
  rw [trimSpace_name hg, splitOnDot_name hg]

theorem marshal_decode {labels : List (List Nat)} {name : List Nat} {td : Bool}
    {packet : List Nat} (hg : GoodName labels name td) (hpkt : packet.length ≤ 16384) :
    ∃ n, UnmarshalName
        (marshalLabels packet (labels ++ (if td then [[]] else []))) 0 packet =
      .ok (joinDot labels, n) := by
  obtain ⟨hne, hgood, hshape, h255⟩ := hg
  have hdisj : labels ++ (if td then [[]] else []) = labels ∨
      labels ++ (if td then [[]] else []) = labels ++ [[]] := by
    cases td with
    | false => left; simp
    | true => right; simp
  have hj255 : (joinDot (labels ++ (if td then [[]] else []))).length ≤ 255 := by
    have hjn : joinDot (labels ++ (if td then [[]] else [])) = name := by
      cases td with
      | false =>
        simp only [Bool.false_eq_true, if_false, List.append_nil] at hshape ⊢
        rw [hshape]
      | true =>
        simp only [if_true] at hshape ⊢
        rw [joinDot_append_nil hne, hshape]
    rw [hjn]; exact h255
  obtain ⟨n, hloop⟩ := marshal_decode_aux (labels ++ (if td then [[]] else [])) labels
    packet (marshalLabels packet (labels ++ (if td then [[]] else []))) 0 [] 0
    (unmarshalFuel (marshalLabels packet (labels ++ (if td then [[]] else []))) packet)
    hdisj hgood hj255 hpkt (List.drop_zero _)
    (by unfold unmarshalFuel; omega)
  have hBne : ¬ (0 ≥ (marshalLabels packet (labels ++ (if td then [[]] else []))).length) := by
    intro hge
    have h0 : (marshalLabels packet (labels ++ (if td then [[]] else []))).length = 0 := by
      omega
    rcases hf : unmarshalFuel (marshalLabels packet (labels ++ (if td then [[]] else []))) packet
      with _ | f
    · unfold unmarshalFuel at hf; omega
    · rw [hf] at hloop
      rw [unmarshalLoop] at hloop
      rw [if_pos (by omega)] at hloop
      exact absurd hloop (by simp)
  have happ : appendAcc [] labels = joinDot labels := by
    rw [appendAcc_spec labels [] (fun l hl => (hgood l hl).1)]
    simp [hne]
  have hjne : joinDot labels ≠ [] := by
    cases hl : labels with
    | nil => exact absurd hl hne
    | cons a t => exact joinDot_cons_ne_nil (hgood a (by rw [hl]; simp)).1 t
  rw [happ] at hloop
  refine ⟨n, ?_⟩
  unfold UnmarshalName
  rw [if_neg hBne]
  simp only [hloop]
  rw [if_neg (by simp [beq_iff_eq, List.length_eq_zero, hjne])]

theorem c1Packet_drop_high : c1Packet.drop 16384 = [1, 97, 0, 0] := by
  unfold c1Packet
  exact List.drop_left' (by rw [List.length_replicate])

theorem c1Packet_drop_mid {i : Nat} (hi : i ≤ 16384) :
    c1Packet.drop i = List.replicate (16384 - i) 2 ++ [1, 97, 0, 0] := by
  unfold c1Packet
  rw [List.drop_append_of_le_length (by rw [List.length_replicate]; exact hi),
    List.drop_replicate]

theorem c1_sliceEq_false {i : Nat} (hi : i < 16384) :
    sliceEq c1Packet i [1, 97, 0] = false := by
  cases h : sliceEq c1Packet i [1, 97, 0] with
  | false => rfl
  | true =>
    exfalso
    have h1 : c1Packet.drop i =
        1 :: (97 :: (0 :: c1Packet.drop (i + ([1, 97, 0] : List Nat).length))) := by
      have := sliceEq_drop h
      simpa using this
    have h2 : c1Packet.drop i =
        2 :: (List.replicate (16384 - i - 1) 2 ++ [1, 97, 0, 0]) := by
      rw [c1Packet_drop_mid (by omega)]
      rcases hk : 16384 - i with _ | k
      · omega
      · rw [List.replicate_succ, List.cons_append]
        norm_num
    have hg1 : c1Packet.getD i 0 = 1 := getD_of_drop_cons h1 0
    have hg2 : c1Packet.getD i 0 = 2 := getD_of_drop_cons h2 0
    omega

theorem c1_findFrom : ∀ (m i : Nat), i + m = 16384 →
    findFrom c1Packet [1, 97, 0] i (m + 1) = some 16384 := by
  intro m
  induction m with
  | zero =>
    intro i hi
    obtain rfl : i = 16384 := by omega
    have hs : sliceEq c1Packet 16384 [1, 97, 0] = true := by
      unfold sliceEq
      rw [c1Packet_drop_high]
      decide
    rw [findFrom, if_pos hs]
  | succ k ih =>
    intro i hi
    rw [findFrom]
    rw [if_neg (by simp [c1_sliceEq_false (show i < 16384 by omega)])]
    exact ih (i + 1) (by omega)

theorem c1_findNameMatch : findNameMatch [97] c1Packet = some 16384 := by
  unfold findNameMatch
  rw [if_neg (by decide)]
  simp only [show EncodeDomainNameToLabel [97] = Except.ok [1, 97, 0] from by decide]
  have hlen : c1Packet.length = 16388 := by
    unfold c1Packet
    rw [List.length_append, List.length_replicate]
    decide
  have h : c1Packet.length - ([1, 97, 0] : List Nat).length = 16384 + 1 := by
    rw [hlen]
    decide
  rw [h]
  exact c1_findFrom 16384 0 (by omega)

/-- C1: the spec claims names survive a MarshalName/UnmarshalName round trip
whenever the name is valid.  Counterexample: against a packet in which the
matching suffix sits at offset 16384, createPointer cannot represent the
offset in 14 bits and returns the empty slice, so MarshalName of the valid
name "a" silently emits an empty buffer that UnmarshalName rejects. -/
theorem C1_compression_counterexample :
    ValidateName [97] = .ok () ∧
    MarshalName [97] c1Packet 0 = .ok [] ∧
    UnmarshalName [] 0 c1Packet =
      .error "initial offset out of bounds for buffer length" := by
  refine ⟨by decide, ?_, by rfl⟩
  unfold MarshalName
  rw [show ValidateName [97] = Except.ok () from by decide]
  rw [if_neg (by decide)]
  rw [show splitOnDot (trimSpace [97]) = [[97]] from by decide]
  rw [marshalLabels]
  rw [if_neg (by decide)]
  rw [show joinDot [[97]] = [97] from by decide]
  simp only [c1_findNameMatch]
  decide

/-- C1 (amended): for a name made of non-empty, dot-free, trim-fixed,
ASCII-only labels of at most 63 bytes each and at most 255 bytes in total
(the ASCII restriction is where the byte-level TrimSpace model is exactly
Go's), both round trips hold: the uncompressed encoder
EncodeDomainNameToLabel produces the plain wire form, which decodes back to
the dot-joined labels (the trailing dot, when present, is not reproduced);
and against a compression packet of at most 16384 bytes MarshalName succeeds
and its output decodes back to the same dot-joined labels. -/
theorem C1_name_round_trip_amended {labels : List (List Nat)} {name : List Nat}
    {td : Bool} {packet : List Nat} (off : Nat)
    (hg : GoodName labels name td)
    (_hascii : ∀ l ∈ labels, ∀ b ∈ l, b < 128)
    (hpkt : packet.length ≤ 16384) :
    (EncodeDomainNameToLabel name = .ok (wireLabels labels ++ [0]) ∧
      UnmarshalName (wireLabels labels ++ [0]) 0 packet =
        .ok (joinDot labels, (wireLabels labels).length + 1)) ∧
    (∃ out n, MarshalName name packet off = .ok out ∧
      UnmarshalName out 0 packet = .ok (joinDot labels, n)) := by
  obtain ⟨n, hdec⟩ := marshal_decode hg hpkt
  exact ⟨⟨encode_ok hg, decode_wire hg.2.1 hg.1 packet⟩,
    ⟨_, n, marshalName_ok hg packet off, hdec⟩⟩

theorem C1_name_round_trip_amended_witness :
    (EncodeDomainNameToLabel [97, dot, 98] = .ok (wireLabels [[97], [98]] ++ [0]) ∧
      UnmarshalName (wireLabels [[97], [98]] ++ [0]) 0 [] =
        .ok (joinDot [[97], [98]], (wireLabels [[97], [98]]).length + 1)) ∧
    (∃ out n, MarshalName [97, dot, 98] [] 0 = .ok out ∧
      UnmarshalName out 0 [] = .ok (joinDot [[97], [98]], n)) :=
  @C1_name_round_trip_amended [[97], [98]] [97, dot, 98] false [] 0 (by decide) (by decide)
    (by decide)

theorem unmarshalLoop_frozen :
    ∀ (fuel : Nat) (full : List Nat) (start : Nat) (cur : List Nat) (offset : Nat)
      (acc : List Nat) (bc : Nat) (pf : Nat) (nm : List Nat) (n : Nat),
      unmarshalLoop full start fuel cur offset acc bc true pf = .ok (nm, n) →
      n = bc := by
  intro fuel
  induction fuel with
  | zero =>
    intro full start cur offset acc bc pf nm n h
    rw [unmarshalLoop] at h
    exact absurd h (by simp)
  | succ f ih =>
    intro full start cur offset acc bc pf nm n h
    rw [unmarshalLoop] at h
    by_cases h1 : offset ≥ cur.length
    · rw [if_pos h1] at h; exact absurd h (by simp)
    · rw [if_neg h1] at h
      by_cases h2 : (cur.getD offset 0 &&& pointerMarker == pointerMarker) = true
      · rw [if_pos h2] at h
        by_cases h3 : offset + 1 ≥ cur.length
        · rw [if_pos h3] at h; exact absurd h (by simp)
        · rw [if_neg h3] at h
          by_cases h4 : ((cur.getD offset 0 &&& 63) <<< 8) ||| cur.getD (offset + 1) 0 ≥
              full.length
          · rw [if_pos h4] at h; exact absurd h (by simp)
          · rw [if_neg h4] at h
            by_cases h5 : pf + 1 > maxPointers
            · rw [if_pos h5] at h; exact absurd h (by simp)
            · rw [if_neg h5] at h
              simp only [if_true] at h
              exact ih full start full _ acc bc (pf + 1) nm n h
      · rw [if_neg h2] at h
        by_cases h3 : cur.getD offset 0 > MaxLabelLength
        · rw [if_pos h3] at h; exact absurd h (by simp)
        · rw [if_neg h3] at h
          by_cases h4 : cur.getD offset 0 = 0
          · rw [if_pos h4, if_pos rfl] at h
            simp only [Except.ok.injEq, Prod.mk.injEq] at h
            exact h.2.symm
          · rw [if_neg h4] at h
            by_cases h5 : offset + 1 + cur.getD offset 0 > cur.length
            · rw [if_pos h5] at h; exact absurd h (by simp)
            · rw [if_neg h5] at h
              simp only [if_true] at h
              exact ih full start cur _ _ bc pf nm n h

theorem unmarshalLoop_scan :
    ∀ (fuel : Nat) (full : List Nat) (start : Nat) (buffer : List Nat) (offset : Nat)
      (acc : List Nat) (bc : Nat) (pf : Nat) (g : Nat) (nm : List Nat) (n : Nat),
      start ≤ offset →
      buffer.length - offset + 1 ≤ g →
      unmarshalLoop full start fuel buffer offset acc bc false pf = .ok (nm, n) →
      ∃ e, physicalExtentAux buffer offset g = some e ∧ n = offset - start + e := by
  intro fuel
  induction fuel with
  | zero =>
    intro full start buffer offset acc bc pf g nm n _ _ h
    rw [unmarshalLoop] at h
    exact absurd h (by simp)
  | succ f ih =>
    intro full start buffer offset acc bc pf g nm n hso hg h
    rw [unmarshalLoop] at h
    by_cases h1 : offset ≥ buffer.length
    · rw [if_pos h1] at h; exact absurd h (by simp)
    · rw [if_neg h1] at h
      rcases g with _ | g'
      · omega
      rw [physicalExtentAux]
      rw [if_neg h1]
      by_cases h2 : (buffer.getD offset 0 &&& pointerMarker == pointerMarker) = true
      · rw [if_pos h2] at h
        rw [if_pos h2]
        by_cases h3 : offset + 1 ≥ buffer.length
        · rw [if_pos h3] at h; exact absurd h (by simp)
        · rw [if_neg h3] at h
          by_cases h4 : ((buffer.getD offset 0 &&& 63) <<< 8) ||| buffer.getD (offset + 1) 0 ≥
              full.length
          · rw [if_pos h4] at h; exact absurd h (by simp)
          · rw [if_neg h4] at h
            by_cases h5 : pf + 1 > maxPointers
            · rw [if_pos h5] at h; exact absurd h (by simp)
            · rw [if_neg h5] at h
              simp only [Bool.false_eq_true, if_false] at h
              have hfr := unmarshalLoop_frozen f full start full _ acc
                (offset - start + 2) (pf + 1) nm n h
              exact ⟨2, rfl, by omega⟩
      · rw [if_neg h2] at h
        rw [if_neg h2]
        by_cases h3 : buffer.getD offset 0 > MaxLabelLength
        · rw [if_pos h3] at h; exact absurd h (by simp)
        · rw [if_neg h3] at h
          by_cases h4 : buffer.getD offset 0 = 0
          · rw [if_pos h4] at h
            rw [if_pos h4]
            simp only [Bool.false_eq_true, if_false, Except.ok.injEq, Prod.mk.injEq] at h
            exact ⟨1, rfl, by omega⟩
          · rw [if_neg h4] at h
            rw [if_neg h4]
            by_cases h5 : offset + 1 + buffer.getD offset 0 > buffer.length
            · rw [if_pos h5] at h; exact absurd h (by simp)
            · rw [if_neg h5] at h
              simp only [Bool.false_eq_true, if_false] at h
              have hb1 : 1 ≤ buffer.getD offset 0 := Nat.pos_of_ne_zero h4
              obtain ⟨e', haux, hn⟩ := ih full start buffer
                (offset + 1 + buffer.getD offset 0) _ _ pf g' nm n
                (by omega) (by omega) h
              rw [haux]
              exact ⟨1 + buffer.getD offset 0 + e', rfl, by omega⟩

/-- C2: whenever UnmarshalName succeeds, the returned bytes-consumed count
equals the number of bytes physically present at the name's location in the
buffer: the distance to just past the terminating zero byte when no pointer
occurs before it, and (position of the first pointer byte − start) + 2 when a
pointer occurs, regardless of the bytes traversed through pointer targets. -/
theorem C2_bytes_consumed_freeze (buffer : List Nat) (offset : Nat) (full : List Nat)
    (nm : List Nat) (bc : Nat)
    (h : UnmarshalName buffer offset full = .ok (nm, bc)) :
    physicalExtent buffer offset = some bc := by
  unfold UnmarshalName at h
  by_cases h1 : offset ≥ buffer.length
  · rw [if_pos h1] at h; exact absurd h (by simp)
  · rw [if_neg h1] at h
    cases hres : unmarshalLoop full offset (unmarshalFuel buffer full) buffer offset [] 0
        false 0 with
    | error e =>
      rw [hres] at h
      exact absurd h (by simp)
    | ok p =>
      obtain ⟨nm', bc'⟩ := p
      simp only [hres] at h
      obtain ⟨e, haux, hn⟩ := unmarshalLoop_scan (unmarshalFuel buffer full) full offset
        buffer offset [] 0 0 (buffer.length + 1) nm' bc' (le_refl offset) (by omega) hres
      have hbc' : bc' = e := by omega
      unfold physicalExtent
      rw [haux]
      by_cases hroot : (nm'.length == 0 && (bc' == 1 && buffer.getD offset 0 == 0)) = true
      · have hb1 : bc' = 1 := by
          simp only [Bool.and_eq_true, beq_iff_eq] at hroot
          exact hroot.2.1
        have hbc : bc = 1 := by
          rw [show (nm'.length == 0 && bc' == 1 && buffer.getD offset 0 == 0) = true from by
            simp only [Bool.and_eq_true] at hroot ⊢
            exact ⟨⟨hroot.1, hroot.2.1⟩, hroot.2.2⟩] at h
          simp only [if_true, Except.ok.injEq, Prod.mk.injEq] at h
          exact h.2.symm
        rw [hbc, ← hb1, hbc']
      · have hne : (nm'.length == 0 && bc' == 1 && buffer.getD offset 0 == 0) ≠ true := by
          intro hcon
          apply hroot
          simp only [Bool.and_eq_true] at hcon ⊢
          exact ⟨hcon.1.1, hcon.1.2, hcon.2⟩
        rw [if_neg hne] at h
        simp only [Except.ok.injEq, Prod.mk.injEq] at h
        rw [← h.2, hbc']

theorem C2_bytes_consumed_freeze_witness :
    UnmarshalName [3, 102, 111, 111, 0, 192, 0, 99] 5 [3, 102, 111, 111, 0, 192, 0, 99] =
      .ok ([102, 111, 111], 2) ∧
    physicalExtent [3, 102, 111, 111, 0, 192, 0, 99] 5 = some 2 :=
  ⟨by decide, C2_bytes_consumed_freeze [3, 102, 111, 111, 0, 192, 0, 99] 5
    [3, 102, 111, 111, 0, 192, 0, 99] [102, 111, 111] 2 (by decide)⟩

theorem unmarshalLoop_walk :
    ∀ (labels : List (List Nat)) (full : List Nat) (start : Nat) (cur : List Nat)
      (offset : Nat) (acc : List Nat) (bc : Nat) (j : Bool) (pf fuel : Nat)
      (rest : List Nat),
      (∀ l ∈ labels, l ≠ [] ∧ l.length ≤ 63) →
      cur.drop offset = wireLabels labels ++ rest →
      ∃ acc2 bc2,
        unmarshalLoop full start (fuel + labels.length) cur offset acc bc j pf =
          unmarshalLoop full start fuel cur (offset + (wireLabels labels).length)
            acc2 bc2 j pf := by
  intro labels
  induction labels with
  | nil =>
    intro full start cur offset acc bc j pf fuel rest _ _
    exact ⟨acc, bc, rfl⟩
  | cons l rest' ih =>
    intro full start cur offset acc bc j pf fuel rest hgood hdrop
    obtain ⟨hlne, hlen63⟩ := hgood l (by simp)
    have hlpos : 1 ≤ l.length := List.length_pos.mpr hlne
    have hdrop1 : cur.drop offset = l.length :: (l ++ (wireLabels rest' ++ rest)) := by
      rw [hdrop, wireLabels]
      simp
    have hlt : ¬ (offset ≥ cur.length) := by
      have := lt_length_of_drop_cons hdrop1
      omega
    have hb : cur.getD offset 0 = l.length := getD_of_drop_cons hdrop1 0
    have hdrop2 : cur.drop (offset + 1) = l ++ (wireLabels rest' ++ rest) :=
      drop_succ_of_drop_cons hdrop1
    have hbound : offset + 1 + l.length ≤ cur.length := by
      have := add_length_le_of_drop_append hdrop2 hlne
      omega
    have hpiece : (cur.drop (offset + 1)).take l.length = l := take_of_drop_append hdrop2
    have hdrop3 : cur.drop (offset + 1 + l.length) = wireLabels rest' ++ rest :=
      drop_add_of_drop_append hdrop2
    obtain ⟨acc2, bc2, hrec⟩ := ih full start cur (offset + 1 + l.length)
      (if acc.length > 0 then acc ++ dot :: l else acc ++ l)
      (if j then bc else offset + 1 + l.length - start) j pf fuel rest
      (fun x hx => hgood x (by simp [hx])) hdrop3
    refine ⟨acc2, bc2, ?_⟩
    have hfs : fuel + (l :: rest').length = (fuel + rest'.length) + 1 := by
      simp only [List.length_cons]
      omega
    rw [hfs]
    rw [unmarshalLoop]
    simp only [hb, hlt, if_false]
    rw [if_neg (by simpa [pointerMarker] using label_byte_not_ptr hlen63)]
    rw [if_neg (by simp [MaxLabelLength]; omega)]
    rw [if_neg (by omega)]
    rw [if_neg (by omega)]
    simp only [hb, hpiece]
    rw [hrec]
    have hoff : offset + 1 + l.length + (wireLabels rest').length =
        offset + (wireLabels (l :: rest')).length := by
      rw [wireLabels]
      simp
      omega
    rw [hoff]

theorem chainSrc_shift (full : List Nat) (labs : Nat → List (List Nat)) (offset : Nat) :
    ∀ k, chainSrc full (fun i => labs (i + 1))
      (ptrTarget full (offset + (wireLabels (labs 0)).length)) k =
      chainSrc full labs offset (k + 1) := by
  intro k
  induction k with
  | zero => rfl
  | succ k ih =>
    show ptrTarget full (chainSrc full (fun i => labs (i + 1))
        (ptrTarget full (offset + (wireLabels (labs 0)).length)) k +
      (wireLabels (labs (k + 1))).length) = chainSrc full labs offset (k + 2)
    rw [ih]
    rfl

theorem unmarshalLoop_cycle :
    ∀ (n pf : Nat), pf + n = 10 →
    ∀ (labs : Nat → List (List Nat)) (full : List Nat) (start offset : Nat)
      (fuel : Nat) (acc : List Nat) (bc : Nat) (j : Bool),
      (∀ k, k ≤ n → ∀ l ∈ labs k, l ≠ [] ∧ l.length ≤ 63) →
      (∀ k, k ≤ n → full.drop (chainSrc full labs offset k) =
        wireLabels (labs k) ++
          full.drop (chainSrc full labs offset k + (wireLabels (labs k)).length)) →
      (∀ k, k ≤ n →
        chainSrc full labs offset k + (wireLabels (labs k)).length + 1 < full.length ∧
        full.getD (chainSrc full labs offset k + (wireLabels (labs k)).length) 0 &&&
          pointerMarker = pointerMarker) →
      (∀ k, k ≤ n →
        ptrTarget full (chainSrc full labs offset k + (wireLabels (labs k)).length) <
          full.length) →
      (n + 1) * (full.length + 2) ≤ fuel →
      unmarshalLoop full start fuel full offset acc bc j pf =
        .error "too many pointers followed, potential loop detected" := by
  intro n
  induction n with
  | zero =>
    intro pf hpf labs full start offset fuel acc bc j hlab hwalk hptr htgt hfuel
    obtain rfl : pf = 10 := by omega
    rw [Nat.one_mul] at hfuel
    have hw0 := hwalk 0 (by omega)
    obtain ⟨hp01, hp02⟩ := hptr 0 (by omega)
    have ht0 := htgt 0 (by omega)
    rw [show chainSrc full labs offset 0 = offset from rfl] at hw0 hp01 hp02 ht0
    have hl0 : (labs 0).length ≤ (wireLabels (labs 0)).length := length_le_wireLabels _
    obtain ⟨acc2, bc2, hwalked⟩ := unmarshalLoop_walk (labs 0) full start full offset
      acc bc j 10 (fuel - (labs 0).length)
      (full.drop (offset + (wireLabels (labs 0)).length)) (hlab 0 (by omega)) hw0
    rw [show fuel - (labs 0).length + (labs 0).length = fuel from by omega] at hwalked
    rw [hwalked]
    cases hf2 : fuel - (labs 0).length with
    | zero => omega
    | succ f =>
      rw [unmarshalLoop]
      rw [if_neg (show ¬ (offset + (wireLabels (labs 0)).length ≥ full.length) by omega)]
      rw [if_pos (show (full.getD (offset + (wireLabels (labs 0)).length) 0 &&&
          pointerMarker == pointerMarker) = true by simp only [beq_iff_eq]; exact hp02)]
      rw [if_neg (show ¬ (offset + (wireLabels (labs 0)).length + 1 ≥ full.length) by
        omega)]
      rw [if_neg (show ¬ (((full.getD (offset + (wireLabels (labs 0)).length) 0 &&& 63) <<<
          8) ||| full.getD (offset + (wireLabels (labs 0)).length + 1) 0 ≥ full.length) by
        unfold ptrTarget at ht0
        omega)]
      rw [if_pos (show 10 + 1 > maxPointers by decide)]
  | succ n ih =>
    intro pf hpf labs full start offset fuel acc bc j hlab hwalk hptr htgt hfuel
    have hsm : (n + 1 + 1) * (full.length + 2) =
        (n + 1) * (full.length + 2) + (full.length + 2) := Nat.succ_mul _ _
    rw [hsm] at hfuel
    have hw0 := hwalk 0 (by omega)
    obtain ⟨hp01, hp02⟩ := hptr 0 (by omega)
    have ht0 := htgt 0 (by omega)
    rw [show chainSrc full labs offset 0 = offset from rfl] at hw0 hp01 hp02 ht0
    have hl0 : (labs 0).length ≤ (wireLabels (labs 0)).length := length_le_wireLabels _
    have hB : full.length + 2 ≤ fuel := by
      generalize (n + 1) * (full.length + 2) = B at hfuel
      omega
    obtain ⟨acc2, bc2, hwalked⟩ := unmarshalLoop_walk (labs 0) full start full offset
      acc bc j pf (fuel - (labs 0).length)
      (full.drop (offset + (wireLabels (labs 0)).length)) (hlab 0 (by omega)) hw0
    rw [show fuel - (labs 0).length + (labs 0).length = fuel from by omega] at hwalked
    rw [hwalked]
    cases hf2 : fuel - (labs 0).length with
    | zero => omega
    | succ f =>
      rw [unmarshalLoop]
      rw [if_neg (show ¬ (offset + (wireLabels (labs 0)).length ≥ full.length) by omega)]
      rw [if_pos (show (full.getD (offset + (wireLabels (labs 0)).length) 0 &&&
          pointerMarker == pointerMarker) = true by simp only [beq_iff_eq]; exact hp02)]
      rw [if_neg (show ¬ (offset + (wireLabels (labs 0)).length + 1 ≥ full.length) by
        omega)]
      rw [if_neg (show ¬ (((full.getD (offset + (wireLabels (labs 0)).length) 0 &&& 63) <<<
          8) ||| full.getD (offset + (wireLabels (labs 0)).length + 1) 0 ≥ full.length) by
        unfold ptrTarget at ht0
        omega)]
      rw [if_neg (show ¬ (pf + 1 > maxPointers) by simp only [maxPointers]; omega)]
      rw [show ((full.getD (offset + (wireLabels (labs 0)).length) 0 &&& 63) <<< 8) |||
          full.getD (offset + (wireLabels (labs 0)).length + 1) 0 =
          ptrTarget full (offset + (wireLabels (labs 0)).length) from rfl]
      exact ih (pf + 1) (by omega) (fun i => labs (i + 1)) full start
        (ptrTarget full (offset + (wireLabels (labs 0)).length)) f acc2 _ true
        (fun k hk => hlab (k + 1) (by omega))
        (fun k hk => by
          rw [chainSrc_shift full labs offset k]
          simpa using hwalk (k + 1) (by omega))
        (fun k hk => by
          rw [chainSrc_shift full labs offset k]
          simpa using hptr (k + 1) (by omega))
        (fun k hk => by
          rw [chainSrc_shift full labs offset k]
          simpa using htgt (k + 1) (by omega))
        (by
          generalize (n + 1) * (full.length + 2) = B at hfuel ⊢
          omega)

/-- C3: pointer defence of UnmarshalName.  (i) For every packet whose
pointer chain reachable from the decode position is at least 11 nodes long —
in particular every packet whose reachable chain contains a cycle, such as
the self-pointer 0xC0 0x00 or the two-cycle 0xC0 0x02 0xC0 0x00, with any
well-formed labels between the jumps — decoding fails with the
loop-detection error once the pointer budget is exceeded.  (ii) For every
buffer whose byte at the decode position is a pointer marker whose second
byte lies past the end of the buffer, decoding fails.  (iii) For every
buffer whose pointer at the decode position has a 14-bit target outside the
full packet, decoding fails.  (iv) The pointer budget maxPointers is a fixed
bound of at most 16. -/
theorem C3_pointer_defence :
    (∀ (full : List Nat) (offset : Nat) (labs : Nat → List (List Nat)),
      (∀ k, k ≤ 10 → ∀ l ∈ labs k, l ≠ [] ∧ l.length ≤ 63) →
      (∀ k, k ≤ 10 → full.drop (chainSrc full labs offset k) =
        wireLabels (labs k) ++
          full.drop (chainSrc full labs offset k + (wireLabels (labs k)).length)) →
      (∀ k, k ≤ 10 →
        chainSrc full labs offset k + (wireLabels (labs k)).length + 1 < full.length ∧
        full.getD (chainSrc full labs offset k + (wireLabels (labs k)).length) 0 &&&
          pointerMarker = pointerMarker) →
      (∀ k, k ≤ 10 →
        ptrTarget full (chainSrc full labs offset k + (wireLabels (labs k)).length) <
          full.length) →
      UnmarshalName full offset full =
        .error "too many pointers followed, potential loop detected") ∧
    (∀ (buffer : List Nat) (offset : Nat) (full : List Nat),
      offset < buffer.length → offset + 1 ≥ buffer.length →
      buffer.getD offset 0 &&& pointerMarker = pointerMarker →
      UnmarshalName buffer offset full = .error "incomplete pointer at end of buffer") ∧
    (∀ (buffer : List Nat) (offset : Nat) (full : List Nat),
      offset + 1 < buffer.length →
      buffer.getD offset 0 &&& pointerMarker = pointerMarker →
      ptrTarget buffer offset ≥ full.length →
      UnmarshalName buffer offset full = .error "pointer offset out of bounds") ∧
    maxPointers ≤ 16 := by
  refine ⟨?_, ?_, ?_, by decide⟩
  · intro full offset labs hlab hwalk hptr htgt
    obtain ⟨hp01, _⟩ := hptr 0 (by omega)
    rw [show chainSrc full labs offset 0 = offset from rfl] at hp01
    have hloop := unmarshalLoop_cycle 10 0 rfl labs full offset offset
      (unmarshalFuel full full) [] 0 false hlab hwalk hptr htgt
      (by unfold unmarshalFuel; omega)
    unfold UnmarshalName
    rw [if_neg (show ¬ (offset ≥ full.length) by omega)]
    simp only [hloop]
  · intro buffer offset full h1 h2 hbp
    have hloop : unmarshalLoop full offset (unmarshalFuel buffer full) buffer offset [] 0
        false 0 = .error "incomplete pointer at end of buffer" := by
      cases hf : unmarshalFuel buffer full with
      | zero => unfold unmarshalFuel at hf; omega
      | succ f =>
        rw [unmarshalLoop]
        rw [if_neg (show ¬ (offset ≥ buffer.length) by omega)]
        rw [if_pos (show (buffer.getD offset 0 &&& pointerMarker == pointerMarker) = true by
          simp only [beq_iff_eq]; exact hbp)]
        rw [if_pos (show offset + 1 ≥ buffer.length by omega)]
    unfold UnmarshalName
    rw [if_neg (show ¬ (offset ≥ buffer.length) by omega)]
    simp only [hloop]
  · intro buffer offset full h1 hbp htgt
    have hloop : unmarshalLoop full offset (unmarshalFuel buffer full) buffer offset [] 0
        false 0 = .error "pointer offset out of bounds" := by
      cases hf : unmarshalFuel buffer full with
      | zero => unfold unmarshalFuel at hf; omega
      | succ f =>
        rw [unmarshalLoop]
        rw [if_neg (show ¬ (offset ≥ buffer.length) by omega)]
        rw [if_pos (show (buffer.getD offset 0 &&& pointerMarker == pointerMarker) = true by
          simp only [beq_iff_eq]; exact hbp)]
        rw [if_neg (show ¬ (offset + 1 ≥ buffer.length) by omega)]
        rw [if_pos (show ((buffer.getD offset 0 &&& 63) <<< 8) |||
            buffer.getD (offset + 1) 0 ≥ full.length by
          unfold ptrTarget at htgt
          omega)]
    unfold UnmarshalName
    rw [if_neg (show ¬ (offset ≥ buffer.length) by omega)]
    simp only [hloop]

theorem C3_pointer_defence_witness :
    UnmarshalName [192, 2, 192, 0] 0 [192, 2, 192, 0] =
      .error "too many pointers followed, potential loop detected" :=
  C3_pointer_defence.1 [192, 2, 192, 0] 0 (fun _ => []) (by decide) (by decide)
    (by decide) (by decide)

/-! ## Message, cache and resolver lemmas -/

theorem except_match_id (x : Except String (List Nat)) :
    (match x with | .error e => Except.error e | .ok d => Except.ok d) = x := by
  cases x <;> rfl

theorem or_two_and_two (x : Nat) : (x ||| 2) &&& 2 = 2 := by
  rw [show (2 : Nat) = 2 ^ 1 from rfl, Nat.and_two_pow]
  have h2 : Nat.testBit 2 1 = true := by decide
  simp [Nat.testBit_or, h2]

theorem and253_and_two (x : Nat) : (x &&& 253) &&& 2 = 0 := by
  rw [Nat.and_assoc, show (253 &&& 2 : Nat) = 0 from by decide, Nat.and_zero]

theorem headerMarshalBinary_len (h : Header) : (headerMarshalBinary h).length = 12 := rfl

theorem setANCOUNT_ok {h h2 : Header} {n : Nat}
    (he : SetANCOUNT h (n : Int) = .ok h2) : h2 = { h with ANCOUNT := n } := by
  unfold SetANCOUNT at he
  by_cases hov : WouldOverflowUint16 (n : Int) = true
  · rw [if_pos hov] at he
    exact absurd he (by simp)
  · rw [if_neg hov] at he
    simp only [Except.ok.injEq] at he
    rw [← he]
    simp

theorem setNSCOUNT_ok {h h2 : Header} {n : Nat}
    (he : SetNSCOUNT h (n : Int) = .ok h2) : h2 = { h with NSCOUNT := n } := by
  unfold SetNSCOUNT at he
  by_cases hov : WouldOverflowUint16 (n : Int) = true
  · rw [if_pos hov] at he
    exact absurd he (by simp)
  · rw [if_neg hov] at he
    simp only [Except.ok.injEq] at he
    rw [← he]
    simp

theorem setARCOUNT_ok {h h2 : Header} {n : Nat}
    (he : SetARCOUNT h (n : Int) = .ok h2) : h2 = { h with ARCOUNT := n } := by
  unfold SetARCOUNT at he
  by_cases hov : WouldOverflowUint16 (n : Int) = true
  · rw [if_pos hov] at he
    exact absurd he (by simp)
  · rw [if_neg hov] at he
    simp only [Except.ok.injEq] at he
    rw [← he]
    simp

theorem copySection_length :
    ∀ (l l' : List RR), copySection l = .ok l' → l'.length = l.length := by
  intro l
  induction l with
  | nil =>
    intro l' h
    simp only [copySection, Except.ok.injEq] at h
    rw [← h]
  | cons r rest ih =>
    intro l' h
    rw [copySection] at h
    cases hr : CopyRR r with
    | error e =>
      rw [hr] at h
      exact absurd h (by simp)
    | ok r2 =>
      simp only [hr] at h
      cases hrest : copySection rest with
      | error e =>
        simp only [hrest] at h
        exact absurd h (by simp)
      | ok rest2 =>
        simp only [hrest, Except.ok.injEq] at h
        rw [← h]
        simp [ih rest2 hrest]

/-- C4: the spec claims the encoder reseats the four emitted counts to the
section lengths.  Counterexample: Message.MarshalBinary of part_003 emits the
stored header counts unchanged — a message with no answers but stored
ANCOUNT 7 is encoded with ANCOUNT bytes 0, 7. -/
theorem C4_section_counts_counterexample :
    messageMarshalBinary c4Msg = .ok [0, 0, 0, 0, 0, 0, 0, 7, 0, 0, 0, 0] ∧
    c4Msg.Answers.length = 0 ∧ (7 : Nat) ≠ 0 := by
  refine ⟨by decide, by decide, by decide⟩

/-- C4 (amended): the first 12 bytes of every successful encoding are the
stored header's bytes — the count fields are the stored counts reduced mod
2^16, taken from the header as it is and not reseated from the section
lengths. -/
theorem C4_section_counts_amended (msg : Message) (out : List Nat)
    (h : messageMarshalBinary msg = .ok out) :
    out.take 12 = headerMarshalBinary msg.Header ∧
    headerMarshalBinary msg.Header =
      u16be msg.Header.ID ++ [msg.Header.Flags0 % 256, msg.Header.Flags1 % 256] ++
        u16be msg.Header.QDCOUNT ++ u16be msg.Header.ANCOUNT ++
        u16be msg.Header.NSCOUNT ++ u16be msg.Header.ARCOUNT := by
  refine ⟨?_, rfl⟩
  unfold messageMarshalBinary at h
  cases hq : marshalQuestions msg.Questions with
  | error e => rw [hq] at h; exact absurd h (by simp)
  | ok qb =>
    simp only [hq] at h
    cases ha : marshalSection msg.Answers with
    | error e => rw [ha] at h; exact absurd h (by simp)
    | ok ab =>
      simp only [ha] at h
      cases hau : marshalSection msg.Authority with
      | error e => rw [hau] at h; exact absurd h (by simp)
      | ok authb =>
        simp only [hau] at h
        cases had : marshalSection msg.Additional with
        | error e => rw [had] at h; exact absurd h (by simp)
        | ok addb =>
          simp only [had, Except.ok.injEq] at h
          rw [← h]
          rw [show headerMarshalBinary msg.Header ++ qb ++ ab ++ authb ++ addb =
            headerMarshalBinary msg.Header ++ (qb ++ ab ++ authb ++ addb) by simp]
          exact List.take_left' (headerMarshalBinary_len msg.Header)

theorem C4_section_counts_amended_witness :
    ([0, 0, 0, 0, 0, 0, 0, 7, 0, 0, 0, 0] : List Nat).take 12 =
      headerMarshalBinary c4Msg.Header :=
  (C4_section_counts_amended c4Msg [0, 0, 0, 0, 0, 0, 0, 7, 0, 0, 0, 0] (by decide)).1

/-- C8: every typed rdata accessor checks the Type discriminator first and
returns an error when it does not match; the accessors are read-only, so the
record itself is untouched. -/
theorem C8_rr_accessor_type_guard (rr : RR) :
    (rr.Typ ≠ 1 → GetRDATAAsARecord rr = .error "record type is not A type") ∧
    (rr.Typ ≠ 2 → GetRDATAAsNSRecord rr = .error "record type is not NS type") ∧
    (rr.Typ ≠ 5 → GetRDATAAsCNAMERecord rr = .error "record type is not CNAME type") ∧
    (rr.Typ ≠ 15 → GetRDATAAsMXRecord rr = .error "record type is not MX type") ∧
    (rr.Typ ≠ 6 → GetRDATAAsSOARecord rr = .error "record type is not SOA type") ∧
    (rr.Typ ≠ 16 → GetRDATAAsTXTRecord rr = .error "record type is not TXT type") ∧
    (rr.Typ ≠ 12 → GetRDATAAsPTRRecord rr = .error "record type is not PTR type") := by
  refine ⟨?_, ?_, ?_, ?_, ?_, ?_, ?_⟩ <;> intro hne
  · unfold GetRDATAAsARecord; rw [if_pos hne]
  · unfold GetRDATAAsNSRecord; rw [if_pos hne]
  · unfold GetRDATAAsCNAMERecord; rw [if_pos hne]
  · unfold GetRDATAAsMXRecord; rw [if_pos hne]
  · unfold GetRDATAAsSOARecord; rw [if_pos hne]
  · unfold GetRDATAAsTXTRecord; rw [if_pos hne]
  · unfold GetRDATAAsPTRRecord; rw [if_pos hne]

theorem C8_rr_accessor_type_guard_witness :
    GetRDATAAsARecord ⟨[], [], [], 99, 0, 0, 0⟩ = .error "record type is not A type" :=
  (C8_rr_accessor_type_guard ⟨[], [], [], 99, 0, 0, 0⟩).1 (by decide)

/-- C9: a response whose encoding exceeds 512 bytes is re-encoded on the
datagram path with TC set, so its final emitted form is the encoding of the
TC=1 message; the stream path clears TC before marshalling, so its emitted
form is the encoding of the TC=0 message. -/
theorem C9_truncation_signalling :
    (∀ (resp : Message) (respData : List Nat),
      messageMarshalBinary resp = .ok respData → respData.length > 512 →
      udpRespond resp = messageMarshalBinary { resp with Header := SetTC resp.Header true } ∧
      IsTC (SetTC resp.Header true) = true) ∧
    (∀ resp : Message,
      tcpRespond resp = messageMarshalBinary { resp with Header := SetTC resp.Header false } ∧
      IsTC (SetTC resp.Header false) = false) := by
  constructor
  · intro resp respData h1 h2
    constructor
    · unfold udpRespond
      simp only [h1]
      rw [if_pos h2]
      exact except_match_id _
    · have hset : SetTC resp.Header true =
          { resp.Header with Flags0 := resp.Header.Flags0 ||| 2 } := rfl
      rw [hset]
      unfold IsTC
      simp only [or_two_and_two]
      decide
  · intro resp
    constructor
    · rfl
    · have hset : SetTC resp.Header false =
          { resp.Header with Flags0 := resp.Header.Flags0 &&& 253 } := rfl
      rw [hset]
      unfold IsTC
      simp only [and253_and_two]
      decide

set_option maxRecDepth 10000 in
theorem C9_truncation_signalling_witness :
    (headerMarshalBinary c9Msg.Header ++ c9Bytes).length > 512 ∧
    udpRespond c9Msg = messageMarshalBinary { c9Msg with Header := SetTC c9Msg.Header true } ∧
    IsTC (SetTC c9Msg.Header true) = true :=
  ⟨by decide,
    C9_truncation_signalling.1 c9Msg (headerMarshalBinary c9Msg.Header ++ c9Bytes)
      (by decide) (by decide)⟩

/-- C10: when Message.Copy succeeds, the copy's ANCOUNT, NSCOUNT and ARCOUNT
are reseated to the lengths of the freshly cloned Answers, Authority and
Additional sections (which match the source's lengths), while the Questions
list is taken from the source as it is (the Go code aliases the slice) and
the header's ID, both flag bytes and QDCOUNT are the source header's values
unchanged. -/
theorem C10_copy_reseats_counts (src msg : Message) (h : Copy (some src) = .ok msg) :
    msg.Header.ANCOUNT = msg.Answers.length ∧
    msg.Header.NSCOUNT = msg.Authority.length ∧
    msg.Header.ARCOUNT = msg.Additional.length ∧
    msg.Answers.length = src.Answers.length ∧
    msg.Authority.length = src.Authority.length ∧
    msg.Additional.length = src.Additional.length ∧
    msg.Questions = src.Questions ∧
    msg.Header.ID = src.Header.ID ∧
    msg.Header.Flags0 = src.Header.Flags0 ∧
    msg.Header.Flags1 = src.Header.Flags1 ∧
    msg.Header.QDCOUNT = src.Header.QDCOUNT := by
  unfold Copy at h
  cases ha : copySection src.Answers with
  | error e => simp only [ha] at h; exact absurd h (by simp)
  | ok answers =>
    simp only [ha] at h
    cases hau : copySection src.Authority with
    | error e => simp only [hau] at h; exact absurd h (by simp)
    | ok authority =>
      simp only [hau] at h
      cases had : copySection src.Additional with
      | error e => simp only [had] at h; exact absurd h (by simp)
      | ok additional =>
        simp only [had] at h
        cases h1 : SetANCOUNT src.Header (answers.length : Int) with
        | error e => simp only [h1] at h; exact absurd h (by simp)
        | ok hh1 =>
          simp only [h1] at h
          cases h2 : SetARCOUNT hh1 (additional.length : Int) with
          | error e => simp only [h2] at h; exact absurd h (by simp)
          | ok hh2 =>
            simp only [h2] at h
            cases h3 : SetNSCOUNT hh2 (authority.length : Int) with
            | error e => simp only [h3] at h; exact absurd h (by simp)
            | ok hh3 =>
              simp only [h3, Except.ok.injEq] at h
              obtain rfl := setANCOUNT_ok h1
              obtain rfl := setARCOUNT_ok h2
              obtain rfl := setNSCOUNT_ok h3
              rw [← h]
              refine ⟨rfl, rfl, rfl, copySection_length _ _ ha,
                copySection_length _ _ hau, copySection_length _ _ had,
                rfl, rfl, rfl, rfl, rfl⟩

theorem C10_copy_reseats_counts_witness :
    Copy (some c10Src) = .ok c10Copy ∧
    c10Copy.Header.ANCOUNT = c10Copy.Answers.length ∧
    c10Copy.Questions = c10Src.Questions ∧
    c10Copy.Header.ID = c10Src.Header.ID :=
  ⟨by decide,
    (C10_copy_reseats_counts c10Src c10Copy (by decide)).1,
    (C10_copy_reseats_counts c10Src c10Copy (by decide)).2.2.2.2.2.2.1,
    (C10_copy_reseats_counts c10Src c10Copy (by decide)).2.2.2.2.2.2.2.1⟩

/-- C7: DNSCache.Put leaves the cache unchanged on a nil message, a message
without answers, or a zero minimum answer TTL; when it stores, the entry's
expiry is now + min(minimum answer TTL, 3600 s); DNSCache.Get returns the
stored message exactly when the key is present and now is not after the
entry's expiry, and being a pure lookup it never modifies the store. -/
theorem C7_cache_contract :
    (∀ (c : List (CacheKey × cachedResponse)) (key : CacheKey) (now : Nat),
      cachePut c key none now = c) ∧
    (∀ (c : List (CacheKey × cachedResponse)) (key : CacheKey) (now : Nat) (m : Message),
      m.Answers = [] → cachePut c key (some m) now = c) ∧
    (∀ (c : List (CacheKey × cachedResponse)) (key : CacheKey) (now : Nat) (m : Message),
      minAnswerTTL m.Answers = 0 → cachePut c key (some m) now = c) ∧
    (∀ (c : List (CacheKey × cachedResponse)) (key : CacheKey) (now : Nat) (m : Message),
      m.Answers ≠ [] → GetQDCOUNT m.Header ≠ 0 → minAnswerTTL m.Answers ≠ 0 →
      cachePut c key (some m) now =
        (key, { message := m, expiresAt := now + min (minAnswerTTL m.Answers) 3600 }) :: c) ∧
    (∀ (c : List (CacheKey × cachedResponse)) (key : CacheKey) (now : Nat) (m : Message),
      cacheGet c key now = some m ↔
        ∃ entry, cacheFind c key = some entry ∧ entry.message = m ∧ ¬ now > entry.expiresAt) := by
  have hput : ∀ (c : List (CacheKey × cachedResponse)) (key : CacheKey) (m : Message)
      (now : Nat),
      cachePut c key (some m) now =
        if m.Answers.length = 0 then c
        else if GetQDCOUNT m.Header = 0 then c
        else if minAnswerTTL m.Answers = 0 then c
        else
          (key,
            { message := m,
              expiresAt := now +
                (if minAnswerTTL m.Answers > 3600 then 3600
                 else minAnswerTTL m.Answers) }) :: c :=
    fun _ _ _ _ => rfl
  have hget : ∀ (c : List (CacheKey × cachedResponse)) (key : CacheKey) (now : Nat),
      cacheGet c key now =
        match cacheFind c key with
        | none => none
        | some entry => if now > entry.expiresAt then none else some entry.message :=
    fun _ _ _ => rfl
  refine ⟨fun c key now => rfl, ?_, ?_, ?_, ?_⟩
  · intro c key now m h
    rw [hput]
    rw [if_pos (by simp [h])]
  · intro c key now m h
    rw [hput]
    by_cases h1 : m.Answers.length = 0
    · rw [if_pos h1]
    · rw [if_neg h1]
      by_cases h2 : GetQDCOUNT m.Header = 0
      · rw [if_pos h2]
      · rw [if_neg h2]
        rw [if_pos h]
  · intro c key now m h1 h2 h3
    rw [hput]
    rw [if_neg (by simp [h1])]
    rw [if_neg h2]
    rw [if_neg h3]
    have hmin : (if minAnswerTTL m.Answers > 3600 then 3600 else minAnswerTTL m.Answers) =
        min (minAnswerTTL m.Answers) 3600 := by
      split <;> omega
    rw [hmin]
  · intro c key now m
    rw [hget]
    cases hf : cacheFind c key with
    | none =>
      simp
    | some entry =>
      simp only []
      by_cases ht : now > entry.expiresAt
      · rw [if_pos ht]
        constructor
        · intro hcon; exact absurd hcon (by simp)
        · rintro ⟨e2, he2, _, hnt⟩
          rw [Option.some.injEq] at he2
          rw [← he2] at hnt
          exact absurd ht hnt
      · rw [if_neg ht]
        constructor
        · intro hm
          rw [Option.some.injEq] at hm
          exact ⟨entry, rfl, hm, ht⟩
        · rintro ⟨e2, he2, hm, _⟩
          rw [Option.some.injEq] at he2
          rw [he2, hm]

theorem C7_cache_contract_witness :
    cachePut [] ([107], 1) (some c7Msg) 0 =
      [(([107], 1),
        { message := c7Msg, expiresAt := 0 + min (minAnswerTTL c7Msg.Answers) 3600 })] :=
  C7_cache_contract.2.2.2.1 [] ([107], 1) 0 c7Msg (by decide) (by decide) (by decide)

/-- C5: a received response is accepted at the resolver-to-nameserver
boundary only when its RCODE is NoError and its transaction id equals the
outbound id; in particular an NXDOMAIN (RCODE 3) response fails the
predicate even with a matching id, so queryNameserver turns it into an
error, and resolveWithNameservers reacts to a failing queryNameserver by
advancing to the next candidate nameserver. -/
theorem C5_valid_response_predicate :
    (∀ (m : Message) (id : Nat),
      isNoErrWithMatchingID m id = true ↔
        GetRCODE m.Header = 0 ∧ GetMessageID m.Header = id) ∧
    (∀ (m : Message) (id : Nat),
      GetRCODE m.Header = 3 → isNoErrWithMatchingID m id = false) ∧
    (∀ (env : ResolverEnv) (serverIP : List Nat) (query : Message) (h : Header)
      (queryData : List Nat) (response : Message),
      env.randomId query.Header = .ok h →
      messageMarshalBinary { query with Header := h } = .ok queryData →
      env.exchange serverIP queryData = .ok response →
      isNoErrWithMatchingID response (GetMessageID h) = false →
      queryNameserver env serverIP query =
        .error "resolveNameserver got invalid response from forwardToResolver") ∧
    (∀ (env : ResolverEnv) (domain : List Nat) (questionType : Nat) (server : RootServer)
      (rest : List RootServer) (d fuel : Nat) (nsQuery0 : Message) (h : Header) (e : String),
      d < 10 →
      CreateDNSQuery env domain questionType 1 false = .ok nsQuery0 →
      env.randomId nsQuery0.Header = .ok h →
      queryNameserver env server.IP { nsQuery0 with Header := h } = .error e →
      resolveWithNameservers env domain questionType (server :: rest) d (fuel + 1) =
        resolveWithNameservers env domain questionType rest d fuel) := by
  refine ⟨?_, ?_, ?_, ?_⟩
  · intro m id
    unfold isNoErrWithMatchingID
    simp [Bool.and_eq_true, beq_iff_eq]
  · intro m id h3
    unfold isNoErrWithMatchingID
    simp [h3]
  · intro env serverIP query h queryData response h1 h2 h3 h4
    unfold queryNameserver
    simp only [h1, h2, h3]
    rw [if_pos h4]
  · intro env domain questionType server rest d fuel nsQuery0 h e hd hcr hrand hqn
    rw [resolveWithNameservers]
    rw [if_neg (by omega)]
    simp only [hcr, hrand, hqn]

theorem C5_valid_response_predicate_witness :
    resolveWithNameservers c5Env [97] 1 [⟨[110], [9]⟩] 0 1 =
      resolveWithNameservers c5Env [97] 1 [] 0 0 :=
  C5_valid_response_predicate.2.2.2 c5Env [97] 1 ⟨[110], [9]⟩ [] 0 0
    ⟨[⟨[97], 1, 1⟩], [], [], [], ⟨42, 0, 0, 1, 0, 0, 0⟩⟩ ⟨42, 0, 0, 1, 0, 0, 0⟩
    "resolveNameserver got invalid response from forwardToResolver"
    (by decide) (by decide) (by decide) (by decide)

set_option maxRecDepth 10000 in
/-- C6: the spec claims the resolver falls back to the upstream forwarder
whenever the iterative walk fails.  Counterexample: when the fallback query
itself fails to marshal (here because its question name exceeds 255 bytes),
resolveRecursively returns an error and never forwards, even though the walk
failed. -/
theorem C6_fallback_counterexample :
    resolveWithNameservers c6Env c6Name 1 c6Env.rootServers 0 1 =
      .error "no nameservers available to query" ∧
    ValidateName c6Name = .error "domain name exceeds maximum length of 255 bytes" ∧
    resolveRecursively c6Env [] 0 (some c6Query) 1 =
      (.error "failed to marshal fallback query", []) := by
  refine ⟨by decide, by decide, by decide⟩

/-- C6 (amended): resolveWithNameservers fails at delegation depth ≥ 10 and
on an empty candidate list; and when the iterative walk fails for a
single-question query that missed the cache, resolveRecursively falls back
to forwarding the question to the upstream resolver provided the fallback
query marshals successfully. -/
theorem C6_depth_guard_and_fallback_amended :
    (∀ (env : ResolverEnv) (domain : List Nat) (questionType : Nat)
      (nameservers : List RootServer) (d fuel : Nat), d ≥ 10 →
      resolveWithNameservers env domain questionType nameservers d (fuel + 1) =
        .error "exceeded maximum delegation count") ∧
    (∀ (env : ResolverEnv) (domain : List Nat) (questionType : Nat) (d fuel : Nat),
      d < 10 →
      resolveWithNameservers env domain questionType [] d (fuel + 1) =
        .error "no nameservers available to query") ∧
    (∀ (env : ResolverEnv) (cache : List (CacheKey × cachedResponse)) (now : Nat)
      (q : Message) (fuel : Nat) (e : String) (queryData : List Nat),
      q.Questions.length = 1 → GetQDCOUNT q.Header = 1 →
      cacheGet cache ((q.Questions.headD defaultQuestion).Name,
        (q.Questions.headD defaultQuestion).Typ) now = none →
      resolveWithNameservers env (q.Questions.headD defaultQuestion).Name
        (q.Questions.headD defaultQuestion).Typ env.rootServers 0 fuel = .error e →
      messageMarshalBinary { q with Header := SetQRFlag q.Header false } = .ok queryData →
      resolveRecursively env cache now (some q) fuel = (env.forward queryData, cache)) := by
  refine ⟨?_, ?_, ?_⟩
  · intro env domain questionType nameservers d fuel hd
    cases nameservers with
    | nil =>
      simp only [resolveWithNameservers]
      rw [if_pos hd]
    | cons s rest =>
      rw [resolveWithNameservers]
      rw [if_pos hd]
  · intro env domain questionType d fuel hd
    simp only [resolveWithNameservers]
    rw [if_neg (by omega)]
  · intro env cache now q fuel e queryData h1 h2 hcache hrwn hmar
    have hcond : ¬ ¬ (q.Questions.length = 1 ∧ GetQDCOUNT q.Header = 1) :=
      not_not.mpr ⟨h1, h2⟩
    simp only [resolveRecursively]
    rw [if_neg hcond]
    simp only [hcache, hrwn, hmar]

theorem C6_depth_guard_and_fallback_amended_witness :
    resolveRecursively c6Env [] 0 (some c6GoodQuery) 1 = (c6Env.forward c6QueryBytes, []) :=
  C6_depth_guard_and_fallback_amended.2.2 c6Env [] 0 c6GoodQuery 1
    "no nameservers available to query" c6QueryBytes
    (by decide) (by decide) (by decide) (by decide) (by decide)

end DnsGo
